import Mathlib

/-!
# OpenWispr dictation core — verification of the specification against the source

Shallow embedding of the OpenWispr push-to-talk dictation daemon (Rust) in
Lean 4, together with theorems settling the specification claims about

* the shortcut parser/normaliser/formatter (`store.rs`),
* the analytics counter update (`store.rs`),
* the audio preprocessor (`crates/stt/src/adapters/backend.rs`),
* the two-profile whisper decode strategy (`backend.rs`),
* the model downloader progress protocol (`backend.rs`),
* the text post-formatter (`crates/text-processor/src/lib.rs`),
* the session orchestrator stop path (`apps/desktop/src-tauri/src/audio.rs`),
* the paste-target capture (`audio.rs`),
* the hotkey state machine (`fn_key_macos.rs`, `fn_key_windows.rs`).

Modelling conventions:
* Rust `String`/`&str` values are `List Char` (`Str` below); the string
  operations the code uses (`trim`, `to_ascii_lowercase`, `split('+')`,
  `join("+")`, whitespace splitting) are embedded as executable list
  functions.  `str::trim` removes Unicode whitespace; the inputs relevant
  here only involve ASCII whitespace, which is what `isWsChar` models.
* `f32`/`f64` arithmetic is modelled over `ℚ` (exact linear arithmetic);
  every claim settled below is robust under this abstraction: the
  properties at stake are about control flow, lengths and exact constant
  factors, not about rounding error.
* Machine integers (`u64` counters) are `Nat` with explicit reduction
  modulo `2 ^ 64` where the source performs wrapping addition.
* External effects (the native whisper decoder, the HTTP stream, the LLM,
  the OS clipboard/window system, hardware key state) are oracles passed
  in as explicit parameters, so each embedded operation is a pure function
  of its inputs.
-/

set_option autoImplicit false

namespace OpenWispr

/-- Character strings, as the character sequence of a Rust `String`. -/
abbrev Str := List Char

/-- ASCII whitespace, modelling `char::is_whitespace` on the ASCII range
(the only range exercised by shortcut specs and transcripts here). -/
def isWsChar (c : Char) : Bool :=
  c = ' ' || c = '\t' || c = '\n' || c = '\r'

/-- `char::to_ascii_lowercase`: uppercase ASCII letters map to their
lowercase forms, everything else is unchanged.  Core `Char.toLower` has
exactly this behaviour. -/
def lowerChar (c : Char) : Char := Char.toLower c

/-- `str::to_ascii_lowercase`. -/
def lowerStr (s : Str) : Str := s.map lowerChar

/-- Leading-whitespace removal (half of `str::trim`). -/
def trimLeft (s : Str) : Str := s.dropWhile isWsChar

/-- Trailing-whitespace removal (the other half of `str::trim`). -/
def trimRight (s : Str) : Str := (s.reverse.dropWhile isWsChar).reverse

/-- `str::trim`: drop leading and trailing whitespace. -/
def trimStr (s : Str) : Str := trimRight (trimLeft s)

/-- `str::split('+')`: split at every `'+'`, keeping empty pieces. -/
def splitOnPlus : Str → List Str
  | [] => [[]]
  | c :: rest =>
    if c = '+' then [] :: splitOnPlus rest
    else
      match splitOnPlus rest with
      | [] => [[c]]
      | t :: ts => (c :: t) :: ts

/-- `Vec::join("+")`. -/
def joinPlus : List Str → Str
  | [] => []
  | [t] => t
  | t :: ts => t ++ '+' :: joinPlus ts

instance instDecEqExcept {ε α : Type} [DecidableEq ε] [DecidableEq α] :
    DecidableEq (Except ε α) := fun a b =>
  match a, b with
  | .ok x, .ok y =>
    if h : x = y then isTrue (congrArg Except.ok h)
    else isFalse fun hc => h (Except.ok.inj hc)
  | .ok _, .error _ => isFalse fun hc => Except.noConfusion hc
  | .error _, .ok _ => isFalse fun hc => Except.noConfusion hc
  | .error e, .error f =>
    if h : e = f then isTrue (congrArg Except.error h)
    else isFalse fun hc => h (Except.error.inj hc)

/-!
## Settings store: shortcut specs (`apps/desktop/src-tauri/src/store.rs`)

`normalize_shortcut`, `parse_shortcut` and `format_shortcut` are direct
translations of the functions of the same names (store.rs lines 92-151).
-/

namespace Store

/-- `ShortcutSpec` (store.rs): modifier flags plus at most one
non-modifier key token. -/
structure ShortcutSpec where
  fn : Bool
  ctrl : Bool
  shift : Bool
  alt : Bool
  meta : Bool
  key : Option Str
deriving DecidableEq

/-- `ShortcutSpec::default()`: all flags clear, no key. -/
def ShortcutSpec.empty : ShortcutSpec :=
  ⟨false, false, false, false, false, none⟩

/-- The token list built inside `normalize_shortcut`: split on `'+'`,
trim and lowercase each part, drop empty parts. -/
def shortcutTokens (raw : Str) : List Str :=
  ((splitOnPlus raw).map fun part => lowerStr (trimStr part)).filter
    fun t => !t.isEmpty

/-- `normalize_shortcut` (store.rs): trimmed lowercase tokens re-joined
with `"+"`. -/
def normalize_shortcut (raw : Str) : Str := joinPlus (shortcutTokens raw)

/-- The literal modifier-name tokens of `parse_shortcut`. -/
def fnTok : Str := "fn".data

def ctrlTok : Str := "ctrl".data

def controlTok : Str := "control".data

def shiftTok : Str := "shift".data

def altTok : Str := "alt".data

def optionTok : Str := "option".data

def metaTok : Str := "meta".data

def cmdTok : Str := "cmd".data

def commandTok : Str := "command".data

def winTok : Str := "win".data

def superTok : Str := "super".data

/-- One iteration of the token loop in `parse_shortcut`: the `match` over
modifier names, with unknown tokens becoming the (unique) key. -/
def applyShortcutToken (spec : ShortcutSpec) (token : Str) :
    Except Str ShortcutSpec :=
  if token = fnTok then .ok { spec with fn := true }
  else if token = ctrlTok ∨ token = controlTok then
    .ok { spec with ctrl := true }
  else if token = shiftTok then .ok { spec with shift := true }
  else if token = altTok ∨ token = optionTok then
    .ok { spec with alt := true }
  else if token = metaTok ∨ token = cmdTok ∨ token = commandTok
      ∨ token = winTok ∨ token = superTok then
    .ok { spec with meta := true }
  else
    match spec.key with
    | some _ => .error "Shortcut can include only one non-modifier key".data
    | none => .ok { spec with key := some token }

/-- The token loop of `parse_shortcut`, with early return on error. -/
def parseTokens : ShortcutSpec → List Str → Except Str ShortcutSpec
  | spec, [] => .ok spec
  | spec, t :: ts =>
    match applyShortcutToken spec t with
    | .error e => .error e
    | .ok spec2 => parseTokens spec2 ts

/-- `parse_shortcut` (store.rs): normalise, reject empty, fold the tokens,
reject the all-empty spec. -/
def parse_shortcut (raw : Str) : Except Str ShortcutSpec :=
  let normalized := normalize_shortcut raw
  if normalized = [] then .error "Shortcut cannot be empty".data
  else
    match parseTokens ShortcutSpec.empty (splitOnPlus normalized) with
    | .error e => .error e
    | .ok spec =>
      if spec.fn = false ∧ spec.ctrl = false ∧ spec.shift = false
          ∧ spec.alt = false ∧ spec.meta = false ∧ spec.key = none then
        .error "Shortcut cannot be empty".data
      else .ok spec

/-- The token vector built by `format_shortcut` before joining. -/
def canonShortcutTokens (spec : ShortcutSpec) : List Str :=
  (if spec.fn then [fnTok] else [])
    ++ (if spec.ctrl then [ctrlTok] else [])
    ++ (if spec.shift then [shiftTok] else [])
    ++ (if spec.alt then [altTok] else [])
    ++ (if spec.meta then [metaTok] else [])
    ++ (match spec.key with | some k => [k] | none => [])

/-- `format_shortcut` (store.rs): canonical modifier order, then the key. -/
def format_shortcut (spec : ShortcutSpec) : Str :=
  joinPlus (canonShortcutTokens spec)

/-- The modifier names recognised by the `match` in `parse_shortcut`. -/
def isModifierToken (t : Str) : Bool :=
  t = fnTok || t = ctrlTok || t = controlTok || t = shiftTok
    || t = altTok || t = optionTok || t = metaTok
    || t = cmdTok || t = commandTok || t = winTok
    || t = superTok

/-- A well-formed token: nonempty, plus-free and fixed by trim/lowercase.
All tokens produced by `normalize_shortcut` have this shape. -/
def GoodTok (t : Str) : Prop :=
  t ≠ [] ∧ '+' ∉ t ∧ trimStr t = t ∧ lowerStr t = t

end Store

/-!
## Settings store: the analytics counter (`store.rs`, `update_analytics`)

`update_analytics` is effectful in the source (it loads the store, mutates
it, saves it and emits an event); the embedding is the pure state update on
the `Analytics` record.  The wall-clock date (`chrono::Local::now`) is the
explicit `today` argument, and the date parsing / day-difference
computation of the `chrono` crate is the oracle `dateDiffDays` (`none`
models a parse failure of either date).
-/

namespace Store

/-- `Analytics` (store.rs): `u64` counters are `Nat` reduced mod `2 ^ 64`
on update, `f64` totals are `ℚ`. -/
structure Analytics where
  lifetime_removed_sec : ℚ
  sessions_count : Nat
  day_streak : Nat
  last_session_date : Option Str
  total_words : Nat
  total_seconds : ℚ
deriving DecidableEq

/-- `Analytics::default()`. -/
def Analytics.init : Analytics := ⟨0, 0, 0, none, 0, 0⟩

def u64Size : Nat := 2 ^ 64

/-- `update_analytics` (store.rs lines 213-250): bump the four totals, then
recompute the daily streak from the last session date. -/
def update_analytics (a : Analytics) (duration_sec : ℚ) (word_count : Nat)
    (today : Str) (dateDiffDays : Str → Str → Option Int) : Analytics :=
  let totals : Analytics :=
    { a with
      total_words := (a.total_words + word_count) % u64Size
      total_seconds := a.total_seconds + duration_sec
      lifetime_removed_sec := a.lifetime_removed_sec + duration_sec * 3
      sessions_count := (a.sessions_count + 1) % u64Size }
  let streak : Nat :=
    match a.last_session_date with
    | some last =>
      if last ≠ today then
        match dateDiffDays last today with
        | some d =>
          if d = 1 then (totals.day_streak + 1) % u64Size
          else if 1 < d then 1
          else totals.day_streak
        | none => 1
      else totals.day_streak
    | none => 1
  { totals with day_streak := streak, last_session_date := some today }

end Store

/-!
## STT backend (`crates/stt/src/adapters/backend.rs`)

### Audio preprocessing

`prepare_audio`, `downmix_to_mono`, `resample_linear` and
`normalize_for_asr` are direct translations, with `f32` samples as `ℚ`.
`f64::round` (half away from zero) is `roundQ`.
-/

namespace Backend

/-- `AudioFormat` (stt crate): `u32`/`u16` fields as `Nat`. -/
structure AudioFormat where
  sample_rate : Nat
  channels : Nat
  bits_per_sample : Nat
deriving DecidableEq

def TARGET_SAMPLE_RATE : Nat := 16000

/-- `slice::chunks(n)` for `n ≥ 1`: consecutive frames, the last one
possibly shorter. -/
def chunksOf {α : Type} (n : Nat) : List α → List (List α)
  | [] => []
  | x :: xs => (x :: xs.take (n - 1)) :: chunksOf n (xs.drop (n - 1))
termination_by l => l.length
decreasing_by
  simp only [List.length_cons]
  have := List.length_drop (n - 1) xs
  omega

/-- `downmix_to_mono` (backend.rs): average each frame. -/
def downmix_to_mono (audio_data : List ℚ) (channels : Nat) : List ℚ :=
  if channels ≤ 1 then audio_data
  else (chunksOf channels audio_data).map fun frame =>
    frame.sum / (frame.length : ℚ)

/-- `f64::round`: round half away from zero. -/
def roundQ (q : ℚ) : Int :=
  if 0 ≤ q then ⌊q + 1 / 2⌋ else -⌊-q + 1 / 2⌋

/-- One output sample of `resample_linear`: linear interpolation between
the two neighbouring input samples of the fractional source position
`i * srcStep` (`srcStep` is `ratio` in the source). -/
def resampleAt (samples : List ℚ) (srcStep : ℚ) (i : Nat) : ℚ :=
  let src_pos : ℚ := (i : ℚ) * srcStep
  let idx : Nat := (⌊src_pos⌋).toNat
  let frac : ℚ := src_pos - (idx : ℚ)
  let a := samples.getD (min idx (samples.length - 1)) 0
  let b := samples.getD (min (idx + 1) (samples.length - 1)) 0
  a + (b - a) * frac

/-- `resample_linear` (backend.rs): linear interpolation at positions
`i * from_rate / to_rate`, producing `max 1 (round (len / ratio))`
samples. -/
def resample_linear (samples : List ℚ) (from_rate to_rate : Nat) : List ℚ :=
  if samples = [] ∨ from_rate = 0 ∨ to_rate = 0 then []
  else if from_rate = to_rate then samples
  else
    (List.range
        (max 1 (roundQ ((samples.length : ℚ)
          / ((from_rate : ℚ) / (to_rate : ℚ))))).toNat).map
      (resampleAt samples ((from_rate : ℚ) / (to_rate : ℚ)))

/-- Peak absolute amplitude, as folded in `normalize_for_asr`. -/
def peakAbs (samples : List ℚ) : ℚ :=
  samples.foldl (fun acc v => max acc |v|) 0

/-- `f32::EPSILON` is exactly `2 ^ (-23)`. -/
def f32Eps : ℚ := 1 / 2 ^ 23

/-- `normalize_for_asr` (backend.rs lines 736-763): lift only very quiet
clips (peak < 0.20) towards a 0.35 peak, gain clamped to `[1, 80]`,
samples clamped to `[-1, 1]`.  The in-place mutation is returned
functionally. -/
def normalize_for_asr (samples : List ℚ) : List ℚ :=
  if samples = [] then samples
  else
    let peak := peakAbs samples
    if peak ≤ f32Eps then samples
    else if 1 / 5 ≤ peak then samples
    else
      let target_peak : ℚ := 7 / 20
      let gain := min (max (target_peak / peak) 1) 80
      if |gain - 1| < 1 / 100 then samples
      else samples.map fun s => max (-1) (min (s * gain) 1)

/-- `prepare_audio` (backend.rs lines 678-697): guard, downmix, resample
to 16 kHz, normalize. -/
def prepare_audio (audio_data : List ℚ) (format : AudioFormat) : List ℚ :=
  if audio_data = [] ∨ format.sample_rate = 0 ∨ format.channels = 0 then []
  else
    let mono :=
      if format.channels = 1 then audio_data
      else downmix_to_mono audio_data format.channels
    let prepared :=
      if format.sample_rate = TARGET_SAMPLE_RATE then mono
      else resample_linear mono format.sample_rate TARGET_SAMPLE_RATE
    normalize_for_asr prepared

/-- The sample count of a 16 kHz mono rendering of a captured buffer:
the mono downmix has `⌈len / channels⌉` frames, and resampling to 16 kHz
turns `frames` input samples into `max 1 (round (frames * 16000 / rate))`
output samples (identically `frames` when the capture is already at
16 kHz).  This is the "output is exactly 16 kHz mono" contract expressed
on sample counts. -/
def expected16kLen (B : List ℚ) (F : AudioFormat) : Nat :=
  let frames := (B.length + F.channels - 1) / F.channels
  (max 1 (roundQ ((frames : ℚ) * 16000 / (F.sample_rate : ℚ)))).toNat

/-!
### Two-profile whisper decode

`decode_once` wraps the native whisper FFI; one call of it is the oracle
`decode : DecodeProfile → Option Str → Except Str Transcription` (the
audio buffer, task and decoder context are fixed for the duration of one
`run_whisper_transcription` call, so the oracle depends only on the
profile and the language option, exactly the two arguments that vary
between the calls in the source).
-/

/-- `TranscriptSegment` (stt crate); the Rust field `end` is `stop` here
(`end` is a Lean keyword). -/
structure TranscriptSegment where
  text : Str
  start : ℚ
  stop : ℚ
deriving DecidableEq

/-- `Transcription` (stt crate). -/
structure Transcription where
  text : Str
  language : Option Str
  confidence : Option ℚ
  segments : List TranscriptSegment
deriving DecidableEq

/-- The two decode parameter profiles of `decode_once`. -/
inductive DecodeProfile
  | primary
  | permissiveFallback
deriving DecidableEq

/-- The emptiness test used by the decision tree:
`text.trim().is_empty() && segments.is_empty()`. -/
def decodeEmpty (t : Transcription) : Bool :=
  (trimStr t.text).isEmpty && t.segments.isEmpty

/-- The cleaned caller hint:
`language_override.as_deref().map(str::trim).filter(|l| !l.is_empty())`. -/
def requestedLanguage (language_override : Option Str) : Option Str :=
  match language_override with
  | some lang =>
    let t := trimStr lang
    if t.isEmpty then none else some t
  | none => none

/-- `run_whisper_transcription` (backend.rs lines 227-304): primary decode
with the biased language, retry with auto-detect when no language was
pinned, then the permissive fallback. -/
def run_whisper_transcription
    (decode : DecodeProfile → Option Str → Except Str Transcription)
    (language_override : Option Str) : Except Str Transcription :=
  let requested_language := requestedLanguage language_override
  let preferred_language : Option Str := some (requested_language.getD "en".data)
  match decode .primary preferred_language with
  | .error e => .error e
  | .ok primary_attempt =>
    if decodeEmpty primary_attempt = false then .ok primary_attempt
    else if requested_language = none then
      match decode .primary none with
      | .error e => .error e
      | .ok auto_attempt =>
        if decodeEmpty auto_attempt = false then .ok auto_attempt
        else
          match decode .permissiveFallback preferred_language with
          | .error e => .error e
          | .ok permissive_attempt => .ok permissive_attempt
    else
      match decode .permissiveFallback preferred_language with
      | .error e => .error e
      | .ok permissive_attempt => .ok permissive_attempt

/-!
### Model download (`download_model`, backend.rs lines 499-659)

The HTTP request, the filesystem and the streamed body are oracles in a
`DownloadEnv`; the outcome records the emitted progress events and the
final state of the temporary `.download` file.  `File::create` truncates,
`fs::rename` moves the temporary file to its destination; the source
never deletes the temporary file on a failure path.
-/

/-- `ModelDownloadProgress` (stt crate). -/
structure ModelDownloadProgress where
  model_name : Str
  stage : Str
  downloaded_bytes : Nat
  total_bytes : Option Nat
  percent : Option ℚ
  done : Bool
  error : Option Str
  message : Option Str
deriving DecidableEq

/-- One `reader.read` outcome: an I/O error, or a chunk of `n` bytes
(`n = 0` is end of stream) whose subsequent `write_all` succeeds iff
`writeOk`. -/
inductive ReadStep
  | readFail
  | readChunk (n : Nat) (writeOk : Bool)
deriving DecidableEq

/-- The external world of one `download_model` call. -/
structure DownloadEnv where
  getResult : Option (Option Nat)
  createOk : Bool
  reads : List ReadStep
  flushOk : Bool
  renameOk : Bool
deriving DecidableEq

/-- Result of one `download_model` call: emitted events, success, and
whether the temporary `.download` file was created / still exists on
return. -/
structure DownloadOutcome where
  events : List ModelDownloadProgress
  ok : Bool
  tmpCreated : Bool
  tmpExists : Bool
deriving DecidableEq

/-- The percentage computed on every emission:
`total.map(|t| ((downloaded as f32 / t as f32) * 100.0).min(100.0))`. -/
def pctOf (downloaded : Nat) (total : Option Nat) : Option ℚ :=
  total.map fun t => min ((downloaded : ℚ) / (t : ℚ) * 100) 100

def progressChunkBytes : Nat := 256 * 1024

/-- The streaming loop of `download_model`: returns the events it emitted,
whether it ran to end-of-stream, and the final byte count. -/
def downloadLoop (model_name : Str) (total : Option Nat) :
    List ReadStep → Nat → Nat → List ModelDownloadProgress × Bool × Nat
  | [], downloaded, _ => ([], true, downloaded)
  | step :: rest, downloaded, last_emitted =>
    match step with
    | .readFail =>
      ([⟨model_name, "download".data, downloaded, total, pctOf downloaded total,
          true, some "failed while reading model stream".data,
          some "Download stream read failed".data⟩],
        false, downloaded)
    | .readChunk n writeOk =>
      if n = 0 then ([], true, downloaded)
      else if writeOk = false then
        ([⟨model_name, "download".data, downloaded, total, pctOf downloaded total,
            true, some "failed while writing model".data,
            some "Write to temporary file failed".data⟩],
          false, downloaded)
      else if decide (progressChunkBytes ≤ downloaded + n - last_emitted)
          || (match total with
              | some t => decide (t ≤ downloaded + n)
              | none => false) then
        (⟨model_name, "download".data, downloaded + n, total,
            pctOf (downloaded + n) total,
            false, none, some "Downloading model".data⟩
          :: (downloadLoop model_name total rest (downloaded + n) (downloaded + n)).1,
          (downloadLoop model_name total rest (downloaded + n) (downloaded + n)).2.1,
          (downloadLoop model_name total rest (downloaded + n) (downloaded + n)).2.2)
      else
        downloadLoop model_name total rest (downloaded + n) last_emitted

/-- `download_model` (backend.rs): GET, initial event, create temporary
file, stream with progress events, flush, rename, terminal event. -/
def download_model (model_name : Str) (env : DownloadEnv) : DownloadOutcome :=
  match env.getResult with
  | none =>
    { events := [⟨model_name, "download".data, 0, none, none, true,
        some "failed to download".data, some "Download request failed".data⟩],
      ok := false, tmpCreated := false, tmpExists := false }
  | some total =>
    let startEv : ModelDownloadProgress :=
      ⟨model_name, "download".data, 0, total, some 0, false, none,
        some "Starting model download".data⟩
    if env.createOk = false then
      { events := [startEv,
          ⟨model_name, "download".data, 0, total, none, true,
            some "failed to create temporary model file".data,
            some "Failed to create temporary file".data⟩],
        ok := false, tmpCreated := false, tmpExists := false }
    else
      let r := downloadLoop model_name total env.reads 0 0
      if r.2.1 = false then
        { events := startEv :: r.1, ok := false,
          tmpCreated := true, tmpExists := true }
      else if env.flushOk = false then
        { events := startEv :: r.1 ++
            [⟨model_name, "download".data, r.2.2, total, pctOf r.2.2 total,
              true, some "failed to flush downloaded model".data,
              some "Failed to flush temporary file".data⟩],
          ok := false, tmpCreated := true, tmpExists := true }
      else if env.renameOk = false then
        { events := startEv :: r.1 ++
            [⟨model_name, "download".data, r.2.2, total, pctOf r.2.2 total,
              true, some "failed to finalize downloaded model".data,
              some "Failed to finalize model file".data⟩],
          ok := false, tmpCreated := true, tmpExists := true }
      else
        { events := startEv :: r.1 ++
            [⟨model_name, "ready".data, r.2.2, total, some 100, true, none,
              some "Model download complete".data⟩],
          ok := true, tmpCreated := true, tmpExists := false }

end Backend

/-!
## Text post-formatter (`crates/text-processor/src/lib.rs`)

`TextProcessor::process` drives one LM call; the prompt builders
(`prompts.rs`) and the LM generation (`llm_adapter.run_prompt`) are the
oracles `promptOf` and `runPrompt`.  The wall-clock `processing_time_ms`
field is dropped from the result record.
-/

namespace TextProcessor

/-- `FormattingMode` (lib.rs). -/
inductive FormattingMode
  | quick
  | standard
  | smart
  | disabled
deriving DecidableEq

/-- `FormattingMode::from_str` (lib.rs): lowercase match with `standard`
as the fallback. -/
def formattingModeFromStr (s : Str) : FormattingMode :=
  if lowerStr s = "quick".data then .quick
  else if lowerStr s = "standard".data then .standard
  else if lowerStr s = "smart".data then .smart
  else if lowerStr s = "disabled".data then .disabled
  else .standard

/-- `ProcessingResult` (lib.rs) without the wall-clock timing field. -/
structure ProcessingResult where
  formatted_text : Str
  original_text : Str
  mode_used : FormattingMode
deriving DecidableEq

/-- `ProcessorError` (lib.rs). -/
inductive ProcessorError
  | llmError (e : Str)
  | emptyInput
  | timeout
deriving DecidableEq

/-- `str::split_whitespace().count()`: number of maximal nonblank runs. -/
def wordCountAux : Str → Bool → Nat
  | [], _ => 0
  | c :: rest, inWord =>
    if isWsChar c then wordCountAux rest false
    else if inWord then wordCountAux rest true
    else 1 + wordCountAux rest true

def wordCount (s : Str) : Nat := wordCountAux s false

/-- `TextProcessor::process` (lib.rs lines 91-142): reject empty input,
pass through short or formatting-disabled transcripts, otherwise run the
LM and fall back to the trimmed raw text when the (trimmed) generation is
empty. -/
def process (mode : FormattingMode) (min_words_for_processing : Nat)
    (promptOf : FormattingMode → Str → Str)
    (runPrompt : Str → Except Str Str)
    (raw_text : Str) : Except ProcessorError ProcessingResult :=
  let trimmed := trimStr raw_text
  if trimmed.isEmpty then .error .emptyInput
  else if mode = .disabled ∨ wordCount trimmed < min_words_for_processing then
    .ok ⟨trimmed, raw_text, .disabled⟩
  else
    match runPrompt (promptOf mode trimmed) with
    | .error e => .error (.llmError e)
    | .ok generated =>
      let formatted := trimStr generated
      let final_text := if formatted.isEmpty then trimmed else formatted
      .ok ⟨final_text, raw_text, mode⟩

end TextProcessor

/-!
## Session orchestrator (`apps/desktop/src-tauri/src/audio.rs`)

### Snippets, RMS, paste targets

`calculate_rms` computes `sqrt(mean(s^2))` and the orchestrator compares
it against the 0.003 silence floor; since both sides are nonnegative the
comparison `sqrt(m) < f` is embedded exactly as `m < f^2`
(`calculate_rms_sq` below), avoiding an irrational square root.
-/

namespace Audio

/-- The square of `calculate_rms` (audio.rs lines 513-520). -/
def calculate_rms_sq (samples : List ℚ) : ℚ :=
  if samples = [] then 0
  else (samples.map fun s => s * s).sum / (samples.length : ℚ)

/-- `Snippet` (store of the desktop app): trigger/expansion pair. -/
structure Snippet where
  trigger : Str
  expansion : Str
deriving DecidableEq

/-- Literal (case-sensitive) `str::replace`, fuelled by the haystack
length; used for the `{{date}}` / `{{time}}` substitutions (the needles
are the nonempty literals, for which the fuel is sufficient). -/
def replaceAllFuel (needle repl : Str) : Nat → Str → Str
  | 0, hay => hay
  | fuel + 1, hay =>
    match hay with
    | [] => []
    | c :: rest =>
      if needle.isPrefixOf (c :: rest) ∧ needle ≠ [] then
        repl ++ replaceAllFuel needle repl fuel ((c :: rest).drop needle.length)
      else c :: replaceAllFuel needle repl fuel rest

def replaceAll (needle repl hay : Str) : Str :=
  replaceAllFuel needle repl hay.length hay

/-- The case-insensitive replacement loop of `apply_snippets`: scan left
to right, compare the lowercased window with the lowercased trigger,
splice the expansion over each match. -/
def replaceCIFuel (needleL repl : Str) : Nat → Str → Str
  | 0, hay => hay
  | fuel + 1, hay =>
    match hay with
    | [] => []
    | c :: rest =>
      if lowerStr ((c :: rest).take needleL.length) = needleL ∧ needleL ≠ [] then
        repl ++ replaceCIFuel needleL repl fuel ((c :: rest).drop needleL.length)
      else c :: replaceCIFuel needleL repl fuel rest

def replaceCI (needleL repl hay : Str) : Str :=
  replaceCIFuel needleL repl hay.length hay

/-- `str::contains` for a literal pattern. -/
def containsSub (hay needle : Str) : Bool :=
  (List.range (hay.length + 1)).any fun i => needle.isPrefixOf (hay.drop i)

/-- `apply_snippets` (audio.rs lines 642-684): stable sort by descending
trigger length, substitute `{{date}}`/`{{time}}` from the wall clock
(`today`, `hhmm`), then case-insensitively replace each trigger. -/
def apply_snippets (text : Str) (snippets : List Snippet)
    (today hhmm : Str) : Str :=
  let sorted := snippets.mergeSort fun a b => b.trigger.length ≤ a.trigger.length
  sorted.foldl
    (fun result snippet =>
      if snippet.trigger.isEmpty then result
      else
        let exp1 :=
          if containsSub snippet.expansion "{{date}}".data then
            replaceAll "{{date}}".data today snippet.expansion
          else snippet.expansion
        let exp2 :=
          if containsSub exp1 "{{time}}".data then
            replaceAll "{{time}}".data hhmm exp1
          else exp1
        replaceCI (lowerStr snippet.trigger) exp2 result)
    text

/-- `MacPasteTarget` (audio.rs). -/
structure MacPasteTarget where
  pid : Int
  name : Str
deriving DecidableEq

/-- Digit-string to number; `none` on empty or non-digit input. -/
def digitsToNat : Str → Option Nat
  | [] => none
  | s =>
    s.foldl
      (fun acc c =>
        acc.bind fun n =>
          if 48 ≤ c.toNat ∧ c.toNat ≤ 57 then some (n * 10 + (c.toNat - 48))
          else none)
      (some 0)

/-- `str::parse::<i32>`: optional sign, digits only, `i32` range. -/
def parseI32 (s : Str) : Option Int :=
  match s with
  | '+' :: rest =>
    (digitsToNat rest).bind fun n =>
      if n ≤ 2147483647 then some (n : Int) else none
  | '-' :: rest =>
    (digitsToNat rest).bind fun n =>
      if n ≤ 2147483648 then some (-(n : Int)) else none
  | _ =>
    (digitsToNat s).bind fun n =>
      if n ≤ 2147483647 then some (n : Int) else none

/-- `parse_frontmost_pid` (audio.rs lines 143-149): trimmed strict parse,
rejecting nonpositive pids. -/
def parse_frontmost_pid (raw : Str) : Option Int :=
  (parseI32 (trimStr raw)).bind fun pid =>
    if pid ≤ 0 then none else some pid

/-- The external inputs of the macOS `capture_active_paste_target`: the
two osascript queries and the process's own pid. -/
structure MacCaptureEnv where
  pidQuery : Option Str
  nameQuery : Option Str
  selfPid : Int
deriving DecidableEq

/-- macOS `capture_active_paste_target` (audio.rs lines 170-228) as a
transformer of the paste-target slot: bail out (leaving the slot
untouched) when the query fails, the pid does not parse, or the frontmost
pid is the process itself; otherwise store pid and name. -/
def capture_active_paste_target_macos (env : MacCaptureEnv)
    (slot : Option MacPasteTarget) : Option MacPasteTarget :=
  match env.pidQuery with
  | none => slot
  | some raw =>
    match parse_frontmost_pid raw with
    | none => slot
    | some pid =>
      if pid = env.selfPid then slot
      else
        let name :=
          match env.nameQuery with
          | some out => trimStr out
          | none => "<unknown>".data
        some ⟨pid, name⟩

/-- Windows `capture_active_paste_target` (audio.rs lines 231-245) as a
transformer of the HWND slot: store `GetForegroundWindow()` whenever it is
nonnull — there is no comparison against the process's own window. -/
def capture_active_paste_target_windows (foregroundHwnd : Int)
    (slot : Option Int) : Option Int :=
  if foregroundHwnd = 0 then slot else some foregroundHwnd

/-!
### The stop path (`stop_recording_for_capture`, audio.rs lines 1115-1391)

The function is driven by oracles for everything behind an `await` or an
FFI boundary: adapter initialisation, optional ffmpeg normalisation, the
decoder, and the combined text-processor initialise+process step.  The
emitted UI events, the text handed to the injector
(`paste_text_preserving_clipboard`), and the returned `Result` are
recorded in order in a `StopOutcome`; the paste is an event in the same
list so that its position relative to `transcription-result` and
`status=idle` is part of the model.
-/

/-- The settings fields consulted by the stop path. -/
structure OrchSettings where
  text_formatting_enabled : Bool
  system_llm_model : Option Str
  personal_dictionary : List Str
  snippets : List Snippet
  text_formatting_mode : Str
deriving DecidableEq

/-- Observable actions of the stop path, in emission order. -/
inductive UiEvent
  | status (s : Str) (error : Option Str)
  | result (text : Str) (language : Option Str) (isFinal : Bool)
  | analyticsUpdate (durationSec : ℚ) (words : Nat)
  | paste (text : Str)
deriving DecidableEq

/-- The external world of one `stop_recording_for_capture` call. -/
structure StopEnv where
  hadStream : Bool
  samples : List ℚ
  fmt : Backend.AudioFormat
  needInit : Bool
  initResult : Except Str Unit
  ffmpegResult : Except Str (List ℚ × Backend.AudioFormat)
  transcribeResult : Except Str Backend.Transcription
  settings : OrchSettings
  isCommandMode : Bool
  formatResult : Except Str Str
  today : Str
  hhmm : Str
deriving DecidableEq

/-- Result of one stop call. -/
structure StopOutcome where
  events : List UiEvent
  ret : Except Str Unit
  transcribeCalled : Bool
deriving DecidableEq

/-- `0.003 ^ 2`, the silence floor squared (see `calculate_rms_sq`). -/
def silenceFloorSq : ℚ := (3 / 1000) ^ 2

/-- `stop_recording_for_capture` (audio.rs lines 1115-1391). -/
def stop_recording_for_capture (env : StopEnv) : StopOutcome :=
  if env.hadStream = false then ⟨[], .ok (), false⟩
  else
    let evs0 := [UiEvent.status "processing".data none]
    if env.samples = [] then ⟨evs0, .ok (), false⟩
    else if calculate_rms_sq env.samples < silenceFloorSq then
      ⟨evs0 ++ [UiEvent.status "idle".data none], .ok (), false⟩
    else
      match (if env.needInit then env.initResult else .ok ()) with
      | .error e => ⟨evs0, .error e, false⟩
      | .ok () =>
        let normalized :=
          match env.ffmpegResult with
          | .ok pair => pair
          | .error _ => (env.samples, env.fmt)
        let audio := normalized.1
        let fmt := normalized.2
        let audioSeconds : ℚ :=
          if 0 < fmt.sample_rate ∧ 0 < fmt.channels then
            (audio.length : ℚ) / (fmt.sample_rate : ℚ) / (fmt.channels : ℚ)
          else 0
        match env.transcribeResult with
        | .error e => ⟨evs0 ++ [UiEvent.status "error".data (some e)], .error e, true⟩
        | .ok result =>
          let words := TextProcessor.wordCount result.text
          let evs1 := evs0 ++ [UiEvent.analyticsUpdate audioSeconds words]
          let final_text :=
            if env.settings.text_formatting_enabled then
              match env.formatResult with
              | .ok ftext =>
                if env.settings.snippets ≠ [] then
                  apply_snippets ftext env.settings.snippets env.today env.hhmm
                else ftext
              | .error _ => result.text
            else result.text
          ⟨evs1 ++
              [UiEvent.paste final_text,
                UiEvent.result result.text result.language true,
                UiEvent.status "idle".data none],
            .ok (), true⟩

end Audio

/-!
## Hotkey state machine (`fn_key_macos.rs`, `fn_key_windows.rs`)

Each OS event delivers the raw attributes read from the OS inside the
callback (flags, keycode, the hardware Fn key state and the unicode
lookup on macOS; vkey/makecode/break flag on Windows), plus the outcome
`startOk` of `start_capture` should this event start a recording.  The
shortcut specs are arguments (the source re-reads and re-parses them from
the store on every event).
-/

namespace FnKey

/-- Observable side effects of one hotkey callback. -/
inductive FnSignal
  | startRecording
  | stopRecording
  | holdSignal (down : Bool)
deriving DecidableEq

/-- The `CGEventFlags` bits the callback reads. -/
structure MacFlags where
  ctrl : Bool
  shift : Bool
  alt : Bool
  meta : Bool
  secondaryFn : Bool
deriving DecidableEq

inductive MacEventType
  | flagsChanged
  | keyDown
  | keyUp
deriving DecidableEq

/-- One macOS tap event with the OS-read attributes. -/
structure MacEvent where
  etype : MacEventType
  flags : MacFlags
  keycode : Int
  hardwareFnDown : Bool
  unicode : Str
  startOk : Bool
deriving DecidableEq

/-- `FnHoldState` (fn_key_macos.rs), minus the app handle. -/
structure MacState where
  fnDown : Bool
  ctrlDown : Bool
  shiftDown : Bool
  altDown : Bool
  metaDown : Bool
  pressedKeys : Finset Str
  keycodeTokens : List (Int × Str)
  fnHardwareSupported : Bool
  isPushActive : Bool
  isHandsFree : Bool
  isRecordingActive : Bool
  holdEmitted : Bool
  handsFreePrevActive : Bool
deriving DecidableEq

/-- The fresh state installed by `start_fn_hold_listener`. -/
def MacState.init : MacState :=
  ⟨false, false, false, false, false, ∅, [], false, false, false, false, false, false⟩

/-- `HashMap::insert` on the keycode→token map. -/
def assocInsert (m : List (Int × Str)) (k : Int) (v : Str) : List (Int × Str) :=
  (k, v) :: m.filter fun p => p.1 ≠ k

/-- `HashMap::remove`, value part. -/
def assocLookup (m : List (Int × Str)) (k : Int) : Option Str :=
  (m.find? fun p => p.1 = k).map Prod.snd

/-- `HashMap::remove`, map part. -/
def assocRemove (m : List (Int × Str)) (k : Int) : List (Int × Str) :=
  m.filter fun p => p.1 ≠ k

/-- `key_token_from_keycode` (fn_key_macos.rs lines 131-156). -/
def key_token_from_keycode (keycode : Int) : Option Str :=
  if keycode = 36 then some "enter".data
  else if keycode = 48 then some "tab".data
  else if keycode = 49 then some "space".data
  else if keycode = 51 then some "backspace".data
  else if keycode = 53 then some "escape".data
  else if keycode = 123 then some "left".data
  else if keycode = 124 then some "right".data
  else if keycode = 125 then some "down".data
  else if keycode = 126 then some "up".data
  else if keycode = 122 then some "f1".data
  else if keycode = 120 then some "f2".data
  else if keycode = 99 then some "f3".data
  else if keycode = 118 then some "f4".data
  else if keycode = 96 then some "f5".data
  else if keycode = 97 then some "f6".data
  else if keycode = 98 then some "f7".data
  else if keycode = 100 then some "f8".data
  else if keycode = 101 then some "f9".data
  else if keycode = 109 then some "f10".data
  else if keycode = 103 then some "f11".data
  else if keycode = 111 then some "f12".data
  else none

/-- `char::is_control` (Unicode Cc). -/
def isControlChar (c : Char) : Bool :=
  c.toNat ≤ 31 || (127 ≤ c.toNat && c.toNat ≤ 159)

/-- `key_token_from_event` (fn_key_macos.rs lines 158-187): keycode table
first, then the first unicode character (control characters rejected,
space mapped, ASCII-lowercased). -/
def key_token_from_event (e : MacEvent) : Option Str :=
  match key_token_from_keycode e.keycode with
  | some tok => some tok
  | none =>
    match e.unicode with
    | [] => none
    | ch :: _ =>
      if isControlChar ch then none
      else if ch = ' ' then some "space".data
      else some [lowerChar ch]

/-- `is_shortcut_active` (fn_key_macos.rs lines 109-129). -/
def is_shortcut_active (spec : Store.ShortcutSpec)
    (fnDown ctrlDown shiftDown altDown metaDown : Bool)
    (pressedKeys : Finset Str) : Bool :=
  if spec.fn ∧ fnDown = false then false
  else if spec.ctrl ∧ ctrlDown = false then false
  else if spec.shift ∧ shiftDown = false then false
  else if spec.alt ∧ altDown = false then false
  else if spec.meta ∧ metaDown = false then false
  else
    match spec.key with
    | some key => pressedKeys.card = 1 && decide (key ∈ pressedKeys)
    | none => true

def macShortcutActive (spec : Store.ShortcutSpec) (s : MacState) : Bool :=
  is_shortcut_active spec s.fnDown s.ctrlDown s.shiftDown s.altDown s.metaDown
    s.pressedKeys

/-- `sync_recording` (fn_key_macos.rs lines 73-92): `startOk` is the
outcome of `start_capture` (`Ok` or the tolerated "Already recording"
error count as success). -/
def mac_sync_recording (startOk : Bool) (s : MacState) : MacState × List FnSignal :=
  let shouldRecord := s.isHandsFree || s.isPushActive
  if shouldRecord = s.isRecordingActive then (s, [])
  else if shouldRecord then
    if startOk then ({ s with isRecordingActive := true }, [.startRecording])
    else ({ s with isRecordingActive := false }, [.startRecording])
  else ({ s with isRecordingActive := false }, [.stopRecording])

/-- `sync_hold_signal` (fn_key_macos.rs lines 94-100). -/
def mac_sync_hold_signal (s : MacState) : MacState × List FnSignal :=
  let shouldEmit := s.isHandsFree || s.isPushActive
  if shouldEmit = s.holdEmitted then (s, [])
  else ({ s with holdEmitted := shouldEmit }, [.holdSignal shouldEmit])

def FN_KEYCODE : Int := 63

/-- `fn_event_tap_callback` (fn_key_macos.rs lines 189-259): modifier
flags, hardware-backed Fn tracking, pressed-key bookkeeping on
KeyDown/KeyUp, hands-free rising edge, push-to-talk recomputation, then
the recording / hold-signal synchronisation. -/
def fn_event_tap_callback (push handsFree : Store.ShortcutSpec)
    (s0 : MacState) (e : MacEvent) : MacState × List FnSignal :=
  let s1 := { s0 with ctrlDown := e.flags.ctrl, shiftDown := e.flags.shift,
                      altDown := e.flags.alt, metaDown := e.flags.meta }
  let s2 := if e.hardwareFnDown then { s1 with fnHardwareSupported := true } else s1
  let s3 :=
    if s2.fnHardwareSupported then { s2 with fnDown := e.hardwareFnDown }
    else if e.etype = .flagsChanged ∧ e.keycode = FN_KEYCODE then
      { s2 with fnDown := e.flags.secondaryFn }
    else s2
  let s4 :=
    if e.etype = .keyDown then
      match key_token_from_event e with
      | some tok =>
        { s3 with keycodeTokens := assocInsert s3.keycodeTokens e.keycode tok,
                  pressedKeys := insert tok s3.pressedKeys }
      | none => s3
    else if e.etype = .keyUp then
      match assocLookup s3.keycodeTokens e.keycode with
      | some existing =>
        { s3 with keycodeTokens := assocRemove s3.keycodeTokens e.keycode,
                  pressedKeys := s3.pressedKeys.erase existing }
      | none =>
        match key_token_from_event e with
        | some tok => { s3 with pressedKeys := s3.pressedKeys.erase tok }
        | none => s3
    else s3
  let handsActive := macShortcutActive handsFree s4
  let s5 :=
    if handsActive ∧ s4.handsFreePrevActive = false then
      { s4 with isHandsFree := !s4.isHandsFree }
    else s4
  let s6 := { s5 with handsFreePrevActive := handsActive }
  let s7 := { s6 with isPushActive :=
    if s6.isHandsFree then false else macShortcutActive push s6 }
  let step1 := mac_sync_recording e.startOk s7
  let step2 := mac_sync_hold_signal step1.1
  (step2.1, step1.2 ++ step2.2)

/-- One Windows raw-input keyboard event (`RAWKEYBOARD` fields). -/
structure WinEvent where
  vkey : Nat
  makecode : Nat
  isBreak : Bool
  startOk : Bool
deriving DecidableEq

/-- `FnHoldState` (fn_key_windows.rs), minus the app handle and debug
flag. -/
structure WinState where
  fnDown : Bool
  ctrlDown : Bool
  shiftDown : Bool
  altDown : Bool
  metaDown : Bool
  pressedKeys : Finset Str
  isPushActive : Bool
  isHandsFree : Bool
  isRecordingActive : Bool
  holdEmitted : Bool
  handsFreePrevActive : Bool
  vkeyOverride : Option Nat
  makecodeOverride : Option Nat
deriving DecidableEq

/-- `vkey_to_key_token` (fn_key_windows.rs lines 146-178). -/
def vkey_to_key_token (vkey : Nat) : Option Str :=
  if 65 ≤ vkey ∧ vkey ≤ 90 then some [Char.ofNat (97 + (vkey - 65))]
  else if 48 ≤ vkey ∧ vkey ≤ 57 then some [Char.ofNat vkey]
  else if 112 ≤ vkey ∧ vkey ≤ 123 then
    some ('f' :: Nat.toDigits 10 (vkey - 112 + 1))
  else if vkey = 32 then some "space".data
  else if vkey = 13 then some "enter".data
  else if vkey = 9 then some "tab".data
  else if vkey = 27 then some "escape".data
  else if vkey = 8 then some "backspace".data
  else if vkey = 189 then some "-".data
  else if vkey = 187 then some "=".data
  else if vkey = 188 then some ",".data
  else if vkey = 190 then some ".".data
  else if vkey = 186 then some ";".data
  else if vkey = 191 then some "/".data
  else if vkey = 192 then some [Char.ofNat 96]
  else if vkey = 219 then some "[".data
  else if vkey = 220 then some [Char.ofNat 92]
  else if vkey = 221 then some "]".data
  else if vkey = 222 then some [Char.ofNat 39]
  else none

/-- `is_fn_key` (fn_key_windows.rs lines 303-313): environment overrides
first, else the best-effort F24/F23/F22 defaults. -/
def is_fn_key (vkey makecode : Nat)
    (vkeyOverride makecodeOverride : Option Nat) : Bool :=
  match vkeyOverride with
  | some ov => vkey = ov
  | none =>
    match makecodeOverride with
    | some om => makecode = om
    | none => vkey = 135 || vkey = 134 || vkey = 133

def winShortcutActive (spec : Store.ShortcutSpec) (s : WinState) : Bool :=
  is_shortcut_active spec s.fnDown s.ctrlDown s.shiftDown s.altDown s.metaDown
    s.pressedKeys

/-- `sync_recording` (fn_key_windows.rs lines 95-114). -/
def win_sync_recording (startOk : Bool) (s : WinState) : WinState × List FnSignal :=
  let shouldRecord := s.isHandsFree || s.isPushActive
  if shouldRecord = s.isRecordingActive then (s, [])
  else if shouldRecord then
    if startOk then ({ s with isRecordingActive := true }, [.startRecording])
    else ({ s with isRecordingActive := false }, [.startRecording])
  else ({ s with isRecordingActive := false }, [.stopRecording])

/-- `sync_hold_signal` (fn_key_windows.rs lines 116-122). -/
def win_sync_hold_signal (s : WinState) : WinState × List FnSignal :=
  let shouldEmit := s.isHandsFree || s.isPushActive
  if shouldEmit = s.holdEmitted then (s, [])
  else ({ s with holdEmitted := shouldEmit }, [.holdSignal shouldEmit])

/-- `handle_raw_input` (fn_key_windows.rs lines 211-301), from the decoded
`RAWKEYBOARD` data on. -/
def handle_raw_input (push handsFree : Store.ShortcutSpec)
    (s0 : WinState) (e : WinEvent) : WinState × List FnSignal :=
  let isDown := !e.isBreak
  let s1 :=
    if is_fn_key e.vkey e.makecode s0.vkeyOverride s0.makecodeOverride then
      { s0 with fnDown := isDown }
    else s0
  let s2 :=
    if e.vkey = 17 ∨ e.vkey = 162 ∨ e.vkey = 163 then { s1 with ctrlDown := isDown }
    else if e.vkey = 16 ∨ e.vkey = 160 ∨ e.vkey = 161 then { s1 with shiftDown := isDown }
    else if e.vkey = 18 ∨ e.vkey = 164 ∨ e.vkey = 165 then { s1 with altDown := isDown }
    else if e.vkey = 91 ∨ e.vkey = 92 then { s1 with metaDown := isDown }
    else s1
  let s3 :=
    match vkey_to_key_token e.vkey with
    | some tok =>
      if isDown then { s2 with pressedKeys := insert tok s2.pressedKeys }
      else { s2 with pressedKeys := s2.pressedKeys.erase tok }
    | none => s2
  let handsActive := winShortcutActive handsFree s3
  let s4 :=
    if handsActive ∧ s3.handsFreePrevActive = false then
      { s3 with isHandsFree := !s3.isHandsFree }
    else s3
  let s5 := { s4 with handsFreePrevActive := handsActive }
  let s6 := { s5 with isPushActive :=
    if s5.isHandsFree then false else winShortcutActive push s5 }
  let step1 := win_sync_recording e.startOk s6
  let step2 := win_sync_hold_signal step1.1
  (step2.1, step1.2 ++ step2.2)

end FnKey

/-! ## Character-level facts used by the shortcut round-trip proofs -/

theorem char_toNat_ofNat {n : Nat} (h : n < 55296) : (Char.ofNat n).toNat = n := by
  rw [Char.ofNat, dif_pos (Or.inl h)]
  simp [Char.ofNatAux, Char.toNat, UInt32.ofNat', UInt32.toNat]

theorem char_toNat_inj {a b : Char} (h : a.toNat = b.toNat) : a = b :=
  Char.ext (UInt32.ext h)

theorem lowerChar_toNat (c : Char) :
    (lowerChar c).toNat =
      if 65 ≤ c.toNat ∧ c.toNat ≤ 90 then c.toNat + 32 else c.toNat := by
  simp only [lowerChar, Char.toLower, ge_iff_le]
  by_cases h : 65 ≤ c.toNat ∧ c.toNat ≤ 90
  · rw [if_pos h, if_pos h]
    exact char_toNat_ofNat (by omega)
  · rw [if_neg h, if_neg h]

theorem lowerChar_idem (c : Char) : lowerChar (lowerChar c) = lowerChar c := by
  apply char_toNat_inj
  rw [lowerChar_toNat, lowerChar_toNat c]
  split_ifs <;> omega

theorem lowerChar_eq_iff {c d : Char} (hd : d.toNat < 65) :
    lowerChar c = d ↔ c = d := by
  constructor
  · intro h
    have ht : (lowerChar c).toNat = d.toNat := by rw [h]
    rw [lowerChar_toNat] at ht
    apply char_toNat_inj
    rcases Decidable.em (65 ≤ c.toNat ∧ c.toNat ≤ 90) with hc | hc
    · rw [if_pos hc] at ht; omega
    · rwa [if_neg hc] at ht
  · intro h
    subst h
    apply char_toNat_inj
    rw [lowerChar_toNat]
    rw [if_neg (by omega)]

theorem isWsChar_lowerChar (c : Char) : isWsChar (lowerChar c) = isWsChar c := by
  unfold isWsChar
  rw [decide_eq_decide.mpr (lowerChar_eq_iff (by decide)),
    decide_eq_decide.mpr (lowerChar_eq_iff (by decide)),
    decide_eq_decide.mpr (lowerChar_eq_iff (by decide)),
    decide_eq_decide.mpr (lowerChar_eq_iff (by decide))]

theorem plus_mem_lowerStr {s : Str} (h : '+' ∈ lowerStr s) : '+' ∈ s := by
  rcases List.mem_map.mp h with ⟨c, hc, hlc⟩
  rwa [(lowerChar_eq_iff (by decide)).mp hlc] at hc

theorem lowerStr_idem (s : Str) : lowerStr (lowerStr s) = lowerStr s := by
  unfold lowerStr
  rw [List.map_map]
  exact List.map_congr_left fun c _ => lowerChar_idem c

/-! ## Trim facts -/

theorem dropWhile_self {α : Type} (p : α → Bool) (l : List α) :
    List.dropWhile p (List.dropWhile p l) = List.dropWhile p l := by
  induction l with
  | nil => rfl
  | cons c r ih =>
    by_cases hc : p c
    · rw [List.dropWhile_cons_of_pos hc]; exact ih
    · rw [List.dropWhile_cons_of_neg hc, List.dropWhile_cons_of_neg hc]

theorem trimLeft_trimLeft (s : Str) : trimLeft (trimLeft s) = trimLeft s :=
  dropWhile_self _ _

theorem trimRight_trimRight (s : Str) : trimRight (trimRight s) = trimRight s := by
  unfold trimRight
  rw [List.reverse_reverse]
  rw [dropWhile_self]

theorem trimRight_prefix (s : Str) : trimRight s <+: s := by
  unfold trimRight
  have h : (s.reverse.dropWhile isWsChar) <:+ s.reverse := List.dropWhile_suffix _
  have := h.reverse
  rwa [List.reverse_reverse] at this

theorem trimLeft_eq_self_of_head {c : Char} {r : Str} (hc : isWsChar c = false) :
    trimLeft (c :: r) = c :: r := by
  unfold trimLeft
  rw [List.dropWhile_cons_of_neg (by simp [hc])]

theorem trimLeft_of_fixed {s : Str} (h : trimLeft s = s) :
    trimLeft (trimRight s) = trimRight s := by
  cases s with
  | nil => rfl
  | cons c r =>
    have hc : isWsChar c = false := by
      by_contra hcc
      have hc : isWsChar c = true := by
        cases hcv : isWsChar c
        · exact absurd hcv hcc
        · rfl
      unfold trimLeft at h
      rw [List.dropWhile_cons_of_pos (by simp [hc])] at h
      have hlen : (List.dropWhile isWsChar r).length ≤ r.length :=
        (List.dropWhile_sublist _).length_le
      have hlen2 : (c :: r).length ≤ r.length := h ▸ hlen
      simp only [List.length_cons] at hlen2
      omega
    rcases trimRight_prefix (c :: r) with ⟨u, hu⟩
    cases htr : trimRight (c :: r) with
    | nil => rfl
    | cons d v =>
      rw [htr] at hu
      have hd : d = c := by
        have : d :: (v ++ u) = c :: r := by simpa using hu
        exact (List.cons_eq_cons.mp this).1
      subst hd
      exact trimLeft_eq_self_of_head hc

theorem trimStr_idem (s : Str) : trimStr (trimStr s) = trimStr s := by
  unfold trimStr
  rw [trimLeft_of_fixed (trimLeft_trimLeft s), trimRight_trimRight]

theorem trimStr_lowerStr (s : Str) : trimStr (lowerStr s) = lowerStr (trimStr s) := by
  have hdrop : ∀ t : Str, List.dropWhile isWsChar (lowerStr t) =
      lowerStr (List.dropWhile isWsChar t) := by
    intro t
    induction t with
    | nil => rfl
    | cons c r ih =>
      show List.dropWhile isWsChar (lowerChar c :: lowerStr r) = _
      by_cases hc : isWsChar c
      · rw [List.dropWhile_cons_of_pos (by simp [isWsChar_lowerChar, hc]),
          List.dropWhile_cons_of_pos (by simp [hc])]
        exact ih
      · rw [List.dropWhile_cons_of_neg (by simp [isWsChar_lowerChar, hc]),
          List.dropWhile_cons_of_neg (by simp [hc])]
        rfl
  have hrev : ∀ t : Str, (lowerStr t).reverse = lowerStr t.reverse := by
    intro t
    unfold lowerStr
    exact (List.map_reverse _ _).symm
  unfold trimStr trimRight trimLeft
  rw [hdrop, hrev, hdrop, hrev]

theorem not_plus_mem_trimStr {s : Str} (h : '+' ∉ s) : '+' ∉ trimStr s := by
  intro hmem
  apply h
  have h1 : trimStr s <+: trimLeft s := trimRight_prefix _
  have h2 : trimLeft s <:+ s := List.dropWhile_suffix _
  exact h2.mem (h1.mem hmem)

/-! ## Split / join facts -/

theorem splitOnPlus_ne_nil (s : Str) : splitOnPlus s ≠ [] := by
  cases s with
  | nil => simp [splitOnPlus]
  | cons c r =>
    simp only [splitOnPlus]
    by_cases hc : c = '+'
    · rw [if_pos hc]; simp
    · rw [if_neg hc]
      cases splitOnPlus r <;> simp

theorem splitOnPlus_not_mem_plus (s : Str) : ∀ p ∈ splitOnPlus s, '+' ∉ p := by
  induction s with
  | nil =>
    intro p hp
    simp [splitOnPlus] at hp
    simp [hp]
  | cons c r ih =>
    intro p hp
    simp only [splitOnPlus] at hp
    by_cases hc : c = '+'
    · rw [if_pos hc] at hp
      rcases List.mem_cons.mp hp with h | h
      · simp [h]
      · exact ih p h
    · rw [if_neg hc] at hp
      cases hrec : splitOnPlus r with
      | nil => exact absurd hrec (splitOnPlus_ne_nil r)
      | cons t ts =>
        rw [hrec] at hp
        rcases List.mem_cons.mp hp with h | h
        · subst h
          intro hmem
          rcases List.mem_cons.mp hmem with h | h
          · exact hc h.symm
          · exact ih t (hrec ▸ List.mem_cons_self t ts) h
        · exact ih p (hrec ▸ List.mem_cons_of_mem t h)

theorem splitOnPlus_no_plus {t : Str} (h : '+' ∉ t) : splitOnPlus t = [t] := by
  induction t with
  | nil => rfl
  | cons c r ih =>
    have hc : c ≠ '+' := fun hcc => h (hcc ▸ List.mem_cons_self c r)
    have hr : '+' ∉ r := fun hmem => h (List.mem_cons_of_mem c hmem)
    simp only [splitOnPlus]
    rw [if_neg hc, ih hr]

theorem splitOnPlus_append_plus {t : Str} (r : Str) (h : '+' ∉ t) :
    splitOnPlus (t ++ '+' :: r) = t :: splitOnPlus r := by
  induction t with
  | nil =>
    show splitOnPlus ('+' :: r) = [] :: splitOnPlus r
    simp [splitOnPlus]
  | cons c u ih =>
    have hc : c ≠ '+' := fun hcc => h (hcc ▸ List.mem_cons_self c u)
    have hu : '+' ∉ u := fun hmem => h (List.mem_cons_of_mem c hmem)
    show splitOnPlus (c :: (u ++ '+' :: r)) = (c :: u) :: splitOnPlus r
    simp only [splitOnPlus]
    rw [if_neg hc, ih hu]

theorem splitOnPlus_joinPlus {ts : List Str} (hne : ts ≠ [])
    (h : ∀ t ∈ ts, '+' ∉ t) : splitOnPlus (joinPlus ts) = ts := by
  induction ts with
  | nil => exact absurd rfl hne
  | cons t rest ih =>
    cases rest with
    | nil =>
      simp only [joinPlus]
      exact splitOnPlus_no_plus (h t (List.mem_cons_self t []))
    | cons t2 rest2 =>
      simp only [joinPlus]
      rw [splitOnPlus_append_plus _ (h t (List.mem_cons_self _ _))]
      rw [ih (by simp) fun u hu => h u (List.mem_cons_of_mem t hu)]

/-!
## Shortcut parser: supporting lemmas
-/

namespace Store

theorem shortcutTokens_good (S : Str) : ∀ t ∈ shortcutTokens S, GoodTok t := by
  intro t ht
  rcases List.mem_filter.mp ht with ⟨hmap, hne⟩
  rcases List.mem_map.mp hmap with ⟨p, hp, hshape⟩
  subst hshape
  refine ⟨?_, ?_, ?_, ?_⟩
  · simpa using hne
  · intro hmem
    exact not_plus_mem_trimStr (splitOnPlus_not_mem_plus S p hp)
      (plus_mem_lowerStr hmem)
  · rw [trimStr_lowerStr, trimStr_idem]
  · exact lowerStr_idem _

theorem goodTok_lower_trim {t : Str} (h : GoodTok t) : lowerStr (trimStr t) = t := by
  rw [h.2.2.1, h.2.2.2]

theorem shortcutTokens_joinPlus {ts : List Str} (hne : ts ≠ [])
    (h : ∀ t ∈ ts, GoodTok t) : shortcutTokens (joinPlus ts) = ts := by
  unfold shortcutTokens
  rw [splitOnPlus_joinPlus hne fun t ht => (h t ht).2.1]
  rw [List.map_congr_left fun t ht => goodTok_lower_trim (h t ht)]
  rw [show (fun t : Str => t) = id from rfl, List.map_id]
  exact List.filter_eq_self.mpr fun t ht => by
    simp [List.isEmpty_iff, (h t ht).1]

theorem joinPlus_ne_nil {ts : List Str} (hne : ts ≠ [])
    (h : ∀ t ∈ ts, t ≠ []) : joinPlus ts ≠ [] := by
  cases ts with
  | nil => exact absurd rfl hne
  | cons t rest =>
    cases rest with
    | nil => exact h t (List.mem_cons_self t [])
    | cons t2 rest2 =>
      simp only [joinPlus]
      cases htn : t with
      | nil => simp
      | cons c u => simp

theorem joinPlus_eq_nil {ts : List Str} (h : ∀ t ∈ ts, t ≠ [])
    (hj : joinPlus ts = []) : ts = [] := by
  by_contra hne
  exact joinPlus_ne_nil hne h hj

/-! Evaluation rules for `applyShortcutToken` on each modifier literal and
on non-modifier key tokens. -/

theorem apply_fn (f c s a m : Bool) (key : Option Str) :
    applyShortcutToken ⟨f, c, s, a, m, key⟩ fnTok = .ok ⟨true, c, s, a, m, key⟩ := by
  unfold applyShortcutToken
  rw [if_pos rfl]

theorem apply_ctrl (f c s a m : Bool) (key : Option Str) :
    applyShortcutToken ⟨f, c, s, a, m, key⟩ ctrlTok = .ok ⟨f, true, s, a, m, key⟩ := by
  unfold applyShortcutToken
  rw [if_neg (by decide), if_pos (by decide)]

theorem apply_control (f c s a m : Bool) (key : Option Str) :
    applyShortcutToken ⟨f, c, s, a, m, key⟩ controlTok = .ok ⟨f, true, s, a, m, key⟩ := by
  unfold applyShortcutToken
  rw [if_neg (by decide), if_pos (by decide)]

theorem apply_shift (f c s a m : Bool) (key : Option Str) :
    applyShortcutToken ⟨f, c, s, a, m, key⟩ shiftTok = .ok ⟨f, c, true, a, m, key⟩ := by
  unfold applyShortcutToken
  rw [if_neg (by decide), if_neg (by decide), if_pos (by decide)]

theorem apply_alt (f c s a m : Bool) (key : Option Str) :
    applyShortcutToken ⟨f, c, s, a, m, key⟩ altTok = .ok ⟨f, c, s, true, m, key⟩ := by
  unfold applyShortcutToken
  rw [if_neg (by decide), if_neg (by decide), if_neg (by decide), if_pos (by decide)]

theorem apply_option (f c s a m : Bool) (key : Option Str) :
    applyShortcutToken ⟨f, c, s, a, m, key⟩ optionTok = .ok ⟨f, c, s, true, m, key⟩ := by
  unfold applyShortcutToken
  rw [if_neg (by decide), if_neg (by decide), if_neg (by decide), if_pos (by decide)]

theorem apply_meta (f c s a m : Bool) (key : Option Str) :
    applyShortcutToken ⟨f, c, s, a, m, key⟩ metaTok = .ok ⟨f, c, s, a, true, key⟩ := by
  unfold applyShortcutToken
  rw [if_neg (by decide), if_neg (by decide), if_neg (by decide), if_neg (by decide),
    if_pos (by decide)]

theorem apply_cmd (f c s a m : Bool) (key : Option Str) :
    applyShortcutToken ⟨f, c, s, a, m, key⟩ cmdTok = .ok ⟨f, c, s, a, true, key⟩ := by
  unfold applyShortcutToken
  rw [if_neg (by decide), if_neg (by decide), if_neg (by decide), if_neg (by decide),
    if_pos (by decide)]

theorem apply_command (f c s a m : Bool) (key : Option Str) :
    applyShortcutToken ⟨f, c, s, a, m, key⟩ commandTok = .ok ⟨f, c, s, a, true, key⟩ := by
  unfold applyShortcutToken
  rw [if_neg (by decide), if_neg (by decide), if_neg (by decide), if_neg (by decide),
    if_pos (by decide)]

theorem apply_win (f c s a m : Bool) (key : Option Str) :
    applyShortcutToken ⟨f, c, s, a, m, key⟩ winTok = .ok ⟨f, c, s, a, true, key⟩ := by
  unfold applyShortcutToken
  rw [if_neg (by decide), if_neg (by decide), if_neg (by decide), if_neg (by decide),
    if_pos (by decide)]

theorem apply_super (f c s a m : Bool) (key : Option Str) :
    applyShortcutToken ⟨f, c, s, a, m, key⟩ superTok = .ok ⟨f, c, s, a, true, key⟩ := by
  unfold applyShortcutToken
  rw [if_neg (by decide), if_neg (by decide), if_neg (by decide), if_neg (by decide),
    if_pos (by decide)]

theorem isModifierToken_eq_false_iff {t : Str} : isModifierToken t = false ↔
    ¬t = fnTok ∧ ¬(t = ctrlTok ∨ t = controlTok) ∧ ¬t = shiftTok
      ∧ ¬(t = altTok ∨ t = optionTok)
      ∧ ¬(t = metaTok ∨ t = cmdTok ∨ t = commandTok
          ∨ t = winTok ∨ t = superTok) := by
  simp only [isModifierToken, Bool.or_eq_false_iff, decide_eq_false_iff_not]
  tauto

theorem apply_nonmod_none {f c s a m : Bool} {t : Str}
    (hmod : isModifierToken t = false) :
    applyShortcutToken ⟨f, c, s, a, m, none⟩ t = .ok ⟨f, c, s, a, m, some t⟩ := by
  obtain ⟨h1, h2, h3, h4, h5⟩ := isModifierToken_eq_false_iff.mp hmod
  unfold applyShortcutToken
  rw [if_neg h1, if_neg h2, if_neg h3, if_neg h4, if_neg h5]

theorem apply_nonmod_some {f c s a m : Bool} {k t : Str}
    (hmod : isModifierToken t = false) :
    applyShortcutToken ⟨f, c, s, a, m, some k⟩ t =
      .error "Shortcut can include only one non-modifier key".data := by
  obtain ⟨h1, h2, h3, h4, h5⟩ := isModifierToken_eq_false_iff.mp hmod
  unfold applyShortcutToken
  rw [if_neg h1, if_neg h2, if_neg h3, if_neg h4, if_neg h5]

theorem apply_of_modifier {spec : ShortcutSpec} {t : Str}
    (hmod : isModifierToken t = true) :
    ∃ spec2, applyShortcutToken spec t = .ok spec2 ∧ spec2.key = spec.key := by
  obtain ⟨f, c, s, a, m, key⟩ := spec
  simp only [isModifierToken, Bool.or_eq_true, decide_eq_true_eq] at hmod
  rcases hmod with ((((((((((h | h) | h) | h) | h) | h) | h) | h) | h) | h) | h) <;>
    subst h
  · exact ⟨_, apply_fn f c s a m key, rfl⟩
  · exact ⟨_, apply_ctrl f c s a m key, rfl⟩
  · exact ⟨_, apply_control f c s a m key, rfl⟩
  · exact ⟨_, apply_shift f c s a m key, rfl⟩
  · exact ⟨_, apply_alt f c s a m key, rfl⟩
  · exact ⟨_, apply_option f c s a m key, rfl⟩
  · exact ⟨_, apply_meta f c s a m key, rfl⟩
  · exact ⟨_, apply_cmd f c s a m key, rfl⟩
  · exact ⟨_, apply_command f c s a m key, rfl⟩
  · exact ⟨_, apply_win f c s a m key, rfl⟩
  · exact ⟨_, apply_super f c s a m key, rfl⟩

theorem applyShortcutToken_key {spec : ShortcutSpec} {t : Str} {spec2 : ShortcutSpec}
    (h : applyShortcutToken spec t = .ok spec2) :
    spec2.key = spec.key ∨
      (spec.key = none ∧ spec2.key = some t ∧ isModifierToken t = false) := by
  by_cases hmod : isModifierToken t = true
  · rcases apply_of_modifier hmod with ⟨spec3, h3, hkey⟩
    rw [h3] at h
    left
    rw [← Except.ok.inj h]
    exact hkey
  · have hmod2 : isModifierToken t = false := by
      cases hv : isModifierToken t
      · rfl
      · exact absurd hv hmod
    obtain ⟨f, c, s, a, m, key⟩ := spec
    cases key with
    | some k =>
      rw [apply_nonmod_some hmod2] at h
      exact absurd h (by simp)
    | none =>
      rw [apply_nonmod_none hmod2] at h
      right
      rw [← Except.ok.inj h]
      exact ⟨rfl, rfl, hmod2⟩

/-- The shape of the key after the token-parsing loop: any key present in
the result is either inherited or one of the processed tokens, and never a
modifier name. -/
theorem parseTokens_key_good :
    ∀ (ts : List Str) (spec0 spec : ShortcutSpec),
      (∀ t ∈ ts, GoodTok t) →
      (∀ k, spec0.key = some k → GoodTok k ∧ isModifierToken k = false) →
      parseTokens spec0 ts = .ok spec →
      ∀ k, spec.key = some k → GoodTok k ∧ isModifierToken k = false := by
  intro ts
  induction ts with
  | nil =>
    intro spec0 spec _ h0 hp
    simp only [parseTokens] at hp
    rw [← Except.ok.inj hp]
    exact h0
  | cons t rest ih =>
    intro spec0 spec hts h0 hp
    cases happ : applyShortcutToken spec0 t with
    | error e =>
      simp only [parseTokens, happ] at hp
      exact absurd hp (by simp)
    | ok spec1 =>
      simp only [parseTokens, happ] at hp
      refine ih spec1 spec (fun u hu => hts u (List.mem_cons_of_mem t hu)) ?_ hp
      intro k hk
      rcases applyShortcutToken_key happ with hsame | ⟨_, hkey, hmod⟩
      · exact h0 k (hsame ▸ hk)
      · have hkt : (some k : Option Str) = some t := by rw [← hk, hkey]
        obtain rfl : k = t := Option.some.inj hkt
        exact ⟨hts _ (List.mem_cons_self _ rest), hmod⟩

/-- Folding the parser over the canonical token list of a spec recovers the
spec (provided the key is not a modifier name). -/
theorem parseTokens_canon (f c s a m : Bool) (key : Option Str)
    (hmod : ∀ k, key = some k → isModifierToken k = false) :
    parseTokens ShortcutSpec.empty (canonShortcutTokens ⟨f, c, s, a, m, key⟩) =
      .ok ⟨f, c, s, a, m, key⟩ := by
  cases key with
  | none =>
    cases f <;> cases c <;> cases s <;> cases a <;> cases m <;>
      simp [canonShortcutTokens, parseTokens, ShortcutSpec.empty,
        apply_fn, apply_ctrl, apply_shift, apply_alt, apply_meta]
  | some k =>
    have hk : isModifierToken k = false := hmod k rfl
    cases f <;> cases c <;> cases s <;> cases a <;> cases m <;>
      simp [canonShortcutTokens, parseTokens, ShortcutSpec.empty,
        apply_fn, apply_ctrl, apply_shift, apply_alt, apply_meta,
        apply_nonmod_none hk]

theorem goodTok_of_parts {t : Str} (h1 : t ≠ []) (h2 : '+' ∉ t)
    (h3 : trimStr t = t) (h4 : lowerStr t = t) : GoodTok t :=
  ⟨h1, h2, h3, h4⟩

theorem canonShortcutTokens_good {spec : ShortcutSpec}
    (hkey : ∀ k, spec.key = some k → GoodTok k) :
    ∀ t ∈ canonShortcutTokens spec, GoodTok t := by
  intro t ht
  simp only [canonShortcutTokens, List.mem_append] at ht
  rcases ht with ((((h | h) | h) | h) | h) | h
  · rcases Decidable.em spec.fn with hb | hb
    · rw [if_pos hb] at h
      rw [List.mem_singleton.mp h]
      exact goodTok_of_parts (by decide) (by decide) (by decide) (by decide)
    · rw [if_neg hb] at h; cases h
  · rcases Decidable.em spec.ctrl with hb | hb
    · rw [if_pos hb] at h
      rw [List.mem_singleton.mp h]
      exact goodTok_of_parts (by decide) (by decide) (by decide) (by decide)
    · rw [if_neg hb] at h; cases h
  · rcases Decidable.em spec.shift with hb | hb
    · rw [if_pos hb] at h
      rw [List.mem_singleton.mp h]
      exact goodTok_of_parts (by decide) (by decide) (by decide) (by decide)
    · rw [if_neg hb] at h; cases h
  · rcases Decidable.em spec.alt with hb | hb
    · rw [if_pos hb] at h
      rw [List.mem_singleton.mp h]
      exact goodTok_of_parts (by decide) (by decide) (by decide) (by decide)
    · rw [if_neg hb] at h; cases h
  · rcases Decidable.em spec.meta with hb | hb
    · rw [if_pos hb] at h
      rw [List.mem_singleton.mp h]
      exact goodTok_of_parts (by decide) (by decide) (by decide) (by decide)
    · rw [if_neg hb] at h; cases h
  · cases hk : spec.key with
    | none => rw [hk] at h; cases h
    | some k =>
      rw [hk] at h
      rw [List.mem_singleton.mp h]
      exact hkey k hk

theorem canonShortcutTokens_ne_nil {spec : ShortcutSpec}
    (h : ¬(spec.fn = false ∧ spec.ctrl = false ∧ spec.shift = false
        ∧ spec.alt = false ∧ spec.meta = false ∧ spec.key = none)) :
    canonShortcutTokens spec ≠ [] := by
  obtain ⟨f, c, s, a, m, key⟩ := spec
  cases f <;> cases c <;> cases s <;> cases a <;> cases m <;> cases key <;>
    simp_all [canonShortcutTokens]

/-- Everything `parse_shortcut` guarantees about a successful parse. -/
theorem parse_shortcut_ok_elim {S : Str} {spec : ShortcutSpec}
    (h : parse_shortcut S = .ok spec) :
    shortcutTokens S ≠ [] ∧
      parseTokens ShortcutSpec.empty (shortcutTokens S) = .ok spec ∧
      ¬(spec.fn = false ∧ spec.ctrl = false ∧ spec.shift = false
          ∧ spec.alt = false ∧ spec.meta = false ∧ spec.key = none) := by
  have hgood := shortcutTokens_good S
  simp only [parse_shortcut, normalize_shortcut] at h
  by_cases hnil : joinPlus (shortcutTokens S) = []
  · rw [if_pos hnil] at h
    exact absurd h (by simp)
  · rw [if_neg hnil] at h
    have htne : shortcutTokens S ≠ [] := by
      intro hts
      exact hnil (by rw [hts]; rfl)
    have hsplit : splitOnPlus (joinPlus (shortcutTokens S)) = shortcutTokens S :=
      splitOnPlus_joinPlus htne fun t ht => (hgood t ht).2.1
    rw [hsplit] at h
    cases hpt : parseTokens ShortcutSpec.empty (shortcutTokens S) with
    | error e =>
      simp only [hpt] at h
      exact absurd h (by simp)
    | ok spec1 =>
      simp only [hpt] at h
      by_cases hempty : spec1.fn = false ∧ spec1.ctrl = false ∧ spec1.shift = false
          ∧ spec1.alt = false ∧ spec1.meta = false ∧ spec1.key = none
      · rw [if_pos hempty] at h
        exact absurd h (by simp)
      · rw [if_neg hempty] at h
        have heq := Except.ok.inj h
        subst heq
        exact ⟨htne, rfl, hempty⟩

/-- Formatting a successfully parsed spec yields a string that re-parses
to exactly the same spec. -/
theorem parse_format_roundtrip {S : Str} {spec : ShortcutSpec}
    (h : parse_shortcut S = .ok spec) :
    parse_shortcut (format_shortcut spec) = .ok spec := by
  obtain ⟨htne, hpt, hnonempty⟩ := parse_shortcut_ok_elim h
  have hkeygood : ∀ k, spec.key = some k → GoodTok k ∧ isModifierToken k = false :=
    parseTokens_key_good (shortcutTokens S) ShortcutSpec.empty spec
      (shortcutTokens_good S) (by intro k hk; cases hk) hpt
  have hcgood : ∀ t ∈ canonShortcutTokens spec, GoodTok t :=
    canonShortcutTokens_good fun k hk => (hkeygood k hk).1
  have hcne : canonShortcutTokens spec ≠ [] := canonShortcutTokens_ne_nil hnonempty
  have htoks : shortcutTokens (format_shortcut spec) = canonShortcutTokens spec := by
    unfold format_shortcut
    exact shortcutTokens_joinPlus hcne hcgood
  have hnne : joinPlus (canonShortcutTokens spec) ≠ [] :=
    joinPlus_ne_nil hcne fun t ht => (hcgood t ht).1
  simp only [parse_shortcut, normalize_shortcut, htoks]
  rw [if_neg hnne]
  rw [splitOnPlus_joinPlus hcne fun t ht => (hcgood t ht).2.1]
  obtain ⟨f, c, s, a, m, key⟩ := spec
  simp only [parseTokens_canon f c s a m key fun k hk => (hkeygood k hk).2]
  rw [if_neg hnonempty]

/-- The token loop rejects every token list carrying two or more
non-modifier tokens (counting a key already stored in the accumulator). -/
theorem parseTokens_multikey :
    ∀ (ts : List Str) (spec0 : ShortcutSpec),
      2 ≤ (ts.filter fun t => !isModifierToken t).length
          + (if spec0.key = none then 0 else 1) →
      ∃ e, parseTokens spec0 ts = .error e := by
  intro ts
  induction ts with
  | nil =>
    intro spec0 hcount
    rcases Decidable.em (spec0.key = none) with hk | hk <;>
      simp [hk] at hcount
  | cons t rest ih =>
    intro spec0 hcount
    cases hmod : isModifierToken t with
    | true =>
      rcases apply_of_modifier hmod with ⟨spec2, happ, hkey⟩
      have hcount2 : 2 ≤ (rest.filter fun u => !isModifierToken u).length
          + (if spec2.key = none then 0 else 1) := by
        simp only [List.filter_cons, hmod, Bool.not_true] at hcount
        simp only [if_neg (by simp : ¬(false = true))] at hcount
        rw [hkey]
        exact hcount
      rcases ih spec2 hcount2 with ⟨e, he⟩
      refine ⟨e, ?_⟩
      simp only [parseTokens, happ]
      exact he
    | false =>
      obtain ⟨f, c, s, a, m, key⟩ := spec0
      cases key with
      | some k =>
        refine ⟨"Shortcut can include only one non-modifier key".data, ?_⟩
        simp only [parseTokens, apply_nonmod_some hmod]

      | none =>
        have hcount2 : 2 ≤ (rest.filter fun u => !isModifierToken u).length
            + (if (some t : Option Str) = none then 0 else 1) := by
          simp [hmod] at hcount
          simp only [reduceCtorEq, if_false]
          omega
        rcases ih ⟨f, c, s, a, m, some t⟩ hcount2 with ⟨e, he⟩
        refine ⟨e, ?_⟩
        simp only [parseTokens, apply_nonmod_none hmod]
        exact he

end Store

/-!
## Claim C5 — shortcut parse/format/normalise

The spec claims `format(parse(S)) == normalize(S)` for every successful
parse.  `format_shortcut` renders modifiers in the fixed order
fn, ctrl, shift, alt, meta with canonical names, while
`normalize_shortcut` preserves the order and spelling of the input
tokens, so the equality fails (e.g. on "ctrl+fn"); what does hold is that
the formatted spec re-parses to the same spec.  The rejection clauses of
the claim hold as stated.
-/

/-- **C5, counterexample.**  `parse_shortcut` accepts "ctrl+fn", but
formatting the parsed spec yields "fn+ctrl", while
`normalize_shortcut "ctrl+fn"` is "ctrl+fn": the claimed equality
`format(parse(S)) = normalize(S)` is false at `S = "ctrl+fn"`. -/
theorem shortcut_format_eq_normalize_refuted :
    ¬ ∀ (S : Str) (spec : Store.ShortcutSpec),
        Store.parse_shortcut S = Except.ok spec →
        Store.format_shortcut spec = Store.normalize_shortcut S := by
  intro hall
  have h := hall "ctrl+fn".data ⟨true, true, false, false, false, none⟩ (by decide)
  exact absurd h (by decide)

/-- **C5 (amended).**  For every shortcut-spec string `S`:
(1) when `parse_shortcut S` succeeds, the formatted rendering of the
resulting spec re-parses to exactly the same spec
(`parse ∘ format ∘ parse = parse`; `format` produces the canonical
modifier order, which coincides with `normalize_shortcut S` only when
`S`'s tokens are already canonically named and ordered);
(2) `parse_shortcut` errors on every spec that is empty after
normalisation; and
(3) `parse_shortcut` errors on every spec whose normalised token list
contains more than one non-modifier key. -/
theorem shortcut_parse_format_roundtrip_and_rejections (S : Str) :
    (∀ spec, Store.parse_shortcut S = Except.ok spec →
        Store.parse_shortcut (Store.format_shortcut spec) = Except.ok spec)
    ∧ (Store.shortcutTokens S = [] →
        ∃ e, Store.parse_shortcut S = Except.error e)
    ∧ (2 ≤ ((Store.shortcutTokens S).filter
          fun t => !Store.isModifierToken t).length →
        ∃ e, Store.parse_shortcut S = Except.error e) := by
  refine ⟨fun spec h => Store.parse_format_roundtrip h, ?_, ?_⟩
  · intro htoks
    refine ⟨"Shortcut cannot be empty".data, ?_⟩
    simp only [Store.parse_shortcut, Store.normalize_shortcut, htoks]
    rfl
  · intro hcount
    have htokgood := Store.shortcutTokens_good S
    by_cases htne : Store.shortcutTokens S = []
    · rw [htne] at hcount
      simp at hcount
    · have hsplit : splitOnPlus (joinPlus (Store.shortcutTokens S)) =
          Store.shortcutTokens S :=
        splitOnPlus_joinPlus htne fun t ht => (htokgood t ht).2.1
      have hjne : joinPlus (Store.shortcutTokens S) ≠ [] :=
        Store.joinPlus_ne_nil htne fun t ht => (htokgood t ht).1
      rcases Store.parseTokens_multikey (Store.shortcutTokens S)
          Store.ShortcutSpec.empty (by simpa using hcount) with ⟨e, he⟩
      refine ⟨e, ?_⟩
      simp only [Store.parse_shortcut, Store.normalize_shortcut]
      rw [if_neg hjne, hsplit]
      simp only [he]

/-- Witness for the amended C5 theorem: concrete instances of all three
clauses. -/
theorem shortcut_parse_format_roundtrip_witness :
    Store.parse_shortcut (Store.format_shortcut
        ⟨true, true, false, false, false, none⟩) =
      Except.ok ⟨true, true, false, false, false, none⟩
    ∧ (∃ e, Store.parse_shortcut " + ".data = Except.error e)
    ∧ (∃ e, Store.parse_shortcut "ctrl+k+m".data = Except.error e) :=
  ⟨(shortcut_parse_format_roundtrip_and_rejections "ctrl+fn".data).1
      ⟨true, true, false, false, false, none⟩ (by decide),
    (shortcut_parse_format_roundtrip_and_rejections " + ".data).2.1 (by decide),
    (shortcut_parse_format_roundtrip_and_rejections "ctrl+k+m".data).2.2 (by decide)⟩

/-!
## Claim C10 — analytics update
-/

/-- **C10.**  Every `update_analytics` call with session duration `d`
seconds and word count `w` adds `d` to `total_seconds`, `w` to
`total_words`, 1 to `sessions_count`, and exactly `3 * d` to
`lifetime_removed_sec` (the "lifetime saved" metric) — the factor 3 is a
hardcoded constant of the source, independent of every other argument
(the wall-clock date and the date-difference oracle included).  The `u64`
counters wrap modulo `2 ^ 64`; the stated increments hold whenever they
do not overflow. -/
theorem update_analytics_increments (a : Store.Analytics) (d : ℚ) (w : Nat)
    (today : Str) (dateDiffDays : Str → Str → Option Int)
    (hw : a.total_words + w < Store.u64Size)
    (hs : a.sessions_count + 1 < Store.u64Size) :
    (Store.update_analytics a d w today dateDiffDays).total_seconds
        = a.total_seconds + d
    ∧ (Store.update_analytics a d w today dateDiffDays).total_words
        = a.total_words + w
    ∧ (Store.update_analytics a d w today dateDiffDays).sessions_count
        = a.sessions_count + 1
    ∧ (Store.update_analytics a d w today dateDiffDays).lifetime_removed_sec
        = a.lifetime_removed_sec + 3 * d := by
  unfold Store.update_analytics
  refine ⟨rfl, Nat.mod_eq_of_lt hw, Nat.mod_eq_of_lt hs, ?_⟩
  show a.lifetime_removed_sec + d * 3 = a.lifetime_removed_sec + 3 * d
  ring

/-- Witness for C10 at a concrete session. -/
theorem update_analytics_increments_witness :
    (Store.update_analytics Store.Analytics.init 2 5 "2026-10-12".data
        fun _ _ => none).total_seconds = Store.Analytics.init.total_seconds + 2
    ∧ (Store.update_analytics Store.Analytics.init 2 5 "2026-10-12".data
        fun _ _ => none).total_words = Store.Analytics.init.total_words + 5
    ∧ (Store.update_analytics Store.Analytics.init 2 5 "2026-10-12".data
        fun _ _ => none).sessions_count = Store.Analytics.init.sessions_count + 1
    ∧ (Store.update_analytics Store.Analytics.init 2 5 "2026-10-12".data
        fun _ _ => none).lifetime_removed_sec
        = Store.Analytics.init.lifetime_removed_sec + 3 * 2 :=
  update_analytics_increments Store.Analytics.init 2 5 "2026-10-12".data
    (fun _ _ => none) (by norm_num [Store.u64Size, Store.Analytics.init])
    (by norm_num [Store.u64Size, Store.Analytics.init])

/-!
## Claim C7 — text post-formatter passthrough and fallback

The claim quantifies over *every* transcript, but `process` returns the
`EmptyInput` error (not the trimmed raw text) when the trimmed transcript
is empty — and the empty transcript has fewer than any positive minimum
word count.  For nonempty trimmed transcripts both claimed behaviours
hold.
-/

/-- **C7, counterexample.**  The empty transcript has fewer than the
default three words, yet `process` returns the `EmptyInput` error rather
than the trimmed raw text. -/
theorem process_short_passthrough_refuted :
    ¬ ∀ (mode : TextProcessor.FormattingMode) (minw : Nat)
        (promptOf : TextProcessor.FormattingMode → Str → Str)
        (runPrompt : Str → Except Str Str) (raw : Str),
        (mode = .disabled ∨ TextProcessor.wordCount (trimStr raw) < minw) →
        ∃ r, TextProcessor.process mode minw promptOf runPrompt raw = .ok r
          ∧ r.formatted_text = trimStr raw := by
  intro hall
  rcases hall .disabled 3 (fun _ t => t) (fun _ => .ok []) [] (Or.inl rfl)
    with ⟨r, hr, _⟩
  have hev : TextProcessor.process TextProcessor.FormattingMode.disabled 3
      (fun _ t => t) (fun _ => Except.ok []) [] = .error .emptyInput := rfl
  rw [hev] at hr
  exact Except.noConfusion hr

/-- **C7 (amended).**  For every transcript whose trimmed text is
nonempty: (1) if formatting is disabled or the transcript has fewer than
the configured minimum number of whitespace-separated words (default 3),
`process` returns the trimmed raw text unchanged (with `mode_used`
reported as `Disabled`); and (2) if the LM generation returns a string
that is empty after trimming, `process` falls back to the trimmed raw
text.  (On an empty trimmed transcript `process` instead returns the
`EmptyInput` error.) -/
theorem process_short_passthrough_and_empty_fallback
    (mode : TextProcessor.FormattingMode) (minw : Nat)
    (promptOf : TextProcessor.FormattingMode → Str → Str)
    (runPrompt : Str → Except Str Str) (raw : Str)
    (hne : (trimStr raw).isEmpty = false) :
    ((mode = .disabled ∨ TextProcessor.wordCount (trimStr raw) < minw) →
      TextProcessor.process mode minw promptOf runPrompt raw =
        .ok ⟨trimStr raw, raw, .disabled⟩)
    ∧ (∀ generated, mode ≠ .disabled →
        minw ≤ TextProcessor.wordCount (trimStr raw) →
        runPrompt (promptOf mode (trimStr raw)) = .ok generated →
        (trimStr generated).isEmpty = true →
        TextProcessor.process mode minw promptOf runPrompt raw =
          .ok ⟨trimStr raw, raw, mode⟩) := by
  constructor
  · intro hshort
    unfold TextProcessor.process
    rw [if_neg (by simp [hne]), if_pos hshort]
  · intro generated hmode hcount hgen hempty
    unfold TextProcessor.process
    rw [if_neg (by simp [hne]), if_neg (not_or.mpr ⟨hmode, by omega⟩)]
    simp [hgen, hempty]

/-- Witness for the amended C7 theorem: both clauses at concrete
transcripts ("hi" is below the three-word minimum; "one two three" runs
the LM, which returns a blank string). -/
theorem process_passthrough_fallback_witness :
    TextProcessor.process .smart 3 (fun _ t => t) (fun _ => Except.ok " ".data)
        "  hi ".data = .ok ⟨"hi".data, "  hi ".data, .disabled⟩
    ∧ TextProcessor.process .smart 3 (fun _ t => t) (fun _ => Except.ok " ".data)
        "one two three".data =
      .ok ⟨"one two three".data, "one two three".data, .smart⟩ :=
  ⟨(process_short_passthrough_and_empty_fallback .smart 3 (fun _ t => t)
      (fun _ => Except.ok " ".data) "  hi ".data (by decide)).1
      (Or.inr (by decide)),
    (process_short_passthrough_and_empty_fallback .smart 3 (fun _ t => t)
      (fun _ => Except.ok " ".data) "one two three".data (by decide)).2
      " ".data (by decide) (by decide) rfl (by decide)⟩

/-!
## Claim C8 — self-paste guard of the paste-target capture

macOS compares the frontmost pid against `std::process::id()` and leaves
the slot untouched on a match; the Windows capture stores
`GetForegroundWindow()` unconditionally (no comparison against the
process's own window), so the claimed guard fails on Windows.
-/

/-- **C8, counterexample.**  On Windows, running the capture while the
core's own window is the foreground window stores the core's own handle:
there is no self-window check. -/
theorem paste_target_self_guard_refuted :
    ¬ ∀ (selfHwnd fg : Int) (slot : Option Int), fg ≠ 0 → fg = selfHwnd →
        Audio.capture_active_paste_target_windows fg slot ≠ some selfHwnd := by
  intro hall
  exact hall 42 42 none (by decide) rfl (by decide)

/-- **C8 (amended).**  On macOS the self-paste guard holds: starting from
any slot that does not hold the process's own pid,
`capture_active_paste_target` never stores the process's own pid (a
frontmost self pid leaves the slot untouched), so the stored paste target
is never the core's own process.  On Windows the capture stores the
(nonnull) foreground window handle unconditionally — including the core's
own window — so the self-paste guard does not exist there. -/
theorem paste_target_capture_guard (env : Audio.MacCaptureEnv)
    (slot : Option Audio.MacPasteTarget)
    (hslot : ∀ t, slot = some t → t.pid ≠ env.selfPid) :
    (∀ t, Audio.capture_active_paste_target_macos env slot = some t →
        t.pid ≠ env.selfPid)
    ∧ (∀ (fg : Int) (wslot : Option Int), fg ≠ 0 →
        Audio.capture_active_paste_target_windows fg wslot = some fg) := by
  constructor
  · intro t ht
    unfold Audio.capture_active_paste_target_macos at ht
    cases hq : env.pidQuery with
    | none => simp only [hq] at ht; exact hslot t ht
    | some raw =>
      simp only [hq] at ht
      cases hp : Audio.parse_frontmost_pid raw with
      | none => simp only [hp] at ht; exact hslot t ht
      | some pid =>
        simp only [hp] at ht
        by_cases hself : pid = env.selfPid
        · rw [if_pos hself] at ht
          exact hslot t ht
        · rw [if_neg hself] at ht
          have : t.pid = pid := by
            rw [← Option.some.inj ht]
          rw [this]
          exact hself
  · intro fg wslot hfg
    unfold Audio.capture_active_paste_target_windows
    rw [if_neg hfg]

/-- Witness for the amended C8 theorem: a concrete macOS capture with the
core itself frontmost leaves the empty slot empty, and a concrete Windows
capture stores the foreground handle. -/
theorem paste_target_capture_guard_witness :
    (∀ t, Audio.capture_active_paste_target_macos ⟨some "77".data, none, 77⟩ none
        = some t → t.pid ≠ 77)
    ∧ Audio.capture_active_paste_target_windows 42 none = some 42 :=
  ⟨(paste_target_capture_guard ⟨some "77".data, none, 77⟩ none
      fun t ht => Option.noConfusion ht).1,
    (paste_target_capture_guard ⟨some "77".data, none, 77⟩ none
      fun t ht => Option.noConfusion ht).2 42 none (by decide)⟩

/-!
## Claim C3 — silence handling on stop

`stop_recording_for_capture` emits `status=processing`, then: an *empty*
buffer makes it return `Ok` immediately — without emitting `status=idle`;
only the nonempty-but-quiet branch (RMS below 0.003) emits `status=idle`.
In neither case is the decoder invoked.  The claim's "emits status=idle"
is therefore false for the empty-buffer half of its disjunction.
-/

/-- A concrete stop environment with an active stream and an empty
capture buffer (the remaining oracle fields are irrelevant: the early
return happens before they are consulted). -/
def emptyBufferStopEnv : Audio.StopEnv :=
  { hadStream := true
    samples := []
    fmt := ⟨16000, 1, 16⟩
    needInit := false
    initResult := .ok ()
    ffmpegResult := .error "ffmpeg binary not found".data
    transcribeResult := .error "unused".data
    settings := ⟨false, none, [], [], "smart".data⟩
    isCommandMode := false
    formatResult := .error "unused".data
    today := "2026-10-12".data
    hhmm := "12:00".data }

/-- **C3, counterexample.**  Stopping with an active stream and an empty
captured buffer returns successfully without invoking the decoder, but it
does *not* emit `status=idle` (the event trace is just
`status=processing`), refuting the claim for the empty-buffer case. -/
theorem silence_skip_emits_idle_refuted :
    ¬ ∀ (env : Audio.StopEnv), env.hadStream = true →
        (env.samples = [] ∨
          Audio.calculate_rms_sq env.samples < Audio.silenceFloorSq) →
        (Audio.stop_recording_for_capture env).ret = .ok ()
        ∧ Audio.UiEvent.status "idle".data none
            ∈ (Audio.stop_recording_for_capture env).events
        ∧ (Audio.stop_recording_for_capture env).transcribeCalled = false := by
  intro hall
  have h := hall emptyBufferStopEnv rfl (Or.inl rfl)
  exact absurd h.2.1 (by decide)

/-- **C3 (amended).**  For every stop with an active stream: an empty
captured buffer makes the orchestrator return successfully without
invoking the decoder and without emitting `status=idle` (the trace stays
at `status=processing`); a nonempty buffer whose RMS is below the fixed
silence floor 0.003 makes it emit `status=idle` and return successfully,
again without invoking the decoder.  (`calculate_rms_sq s < 0.003²` is
exactly `calculate_rms s < 0.003` since both sides are nonnegative.) -/
theorem stop_silence_skips_decoder (env : Audio.StopEnv)
    (hs : env.hadStream = true) :
    (env.samples = [] →
      Audio.stop_recording_for_capture env =
        ⟨[Audio.UiEvent.status "processing".data none], .ok (), false⟩)
    ∧ (env.samples ≠ [] →
      Audio.calculate_rms_sq env.samples < Audio.silenceFloorSq →
      Audio.stop_recording_for_capture env =
        ⟨[Audio.UiEvent.status "processing".data none,
          Audio.UiEvent.status "idle".data none], .ok (), false⟩) := by
  constructor
  · intro hempty
    unfold Audio.stop_recording_for_capture
    rw [if_neg (by simp [hs]), if_pos hempty]
  · intro hne hquiet
    unfold Audio.stop_recording_for_capture
    rw [if_neg (by simp [hs]), if_neg hne, if_pos hquiet]
    rfl

/-- Witness for the amended C3 theorem: the empty buffer, and a concrete
3-second quiet buffer (constant amplitude 0.001, far below the floor). -/
theorem stop_silence_skips_decoder_witness :
    Audio.stop_recording_for_capture emptyBufferStopEnv =
      ⟨[Audio.UiEvent.status "processing".data none], .ok (), false⟩
    ∧ Audio.stop_recording_for_capture
        { emptyBufferStopEnv with samples := [1/1000, -(1/1000)] } =
      ⟨[Audio.UiEvent.status "processing".data none,
        Audio.UiEvent.status "idle".data none], .ok (), false⟩ :=
  ⟨(stop_silence_skips_decoder emptyBufferStopEnv rfl).1 rfl,
    (stop_silence_skips_decoder
        { emptyBufferStopEnv with samples := [1/1000, -(1/1000)] } rfl).2
      (by decide)
      (by
        have h2 : ([1 / 1000, -(1 / 1000)] : List ℚ) ≠ [] := by simp
        show Audio.calculate_rms_sq [1 / 1000, -(1 / 1000)] < Audio.silenceFloorSq
        simp only [Audio.calculate_rms_sq, if_neg h2]
        norm_num [Audio.silenceFloorSq])⟩

/-!
## Claim C6 — audio preprocessor

Supporting facts: `roundQ` on integers, the chunk count of `chunksOf`,
and the length behaviour of each pipeline stage.
-/

theorem roundQ_natCast (n : Nat) : Backend.roundQ (n : ℚ) = (n : Int) := by
  unfold Backend.roundQ
  rw [if_pos (by positivity)]
  apply Int.floor_eq_iff.mpr
  constructor
  · push_cast
    linarith
  · push_cast
    linarith

theorem chunksOf_length {α : Type} (n : Nat) (hn : 0 < n) (l : List α) :
    (Backend.chunksOf n l).length = (l.length + n - 1) / n := by
  have main : ∀ (k : Nat) (l2 : List α), l2.length ≤ k →
      (Backend.chunksOf n l2).length = (l2.length + n - 1) / n := by
    intro k
    induction k with
    | zero =>
      intro l2 hl
      have hnil : l2 = [] := List.eq_nil_of_length_eq_zero (Nat.le_zero.mp hl)
      subst hnil
      simp only [Backend.chunksOf, List.length_nil]
      rw [Nat.div_eq_of_lt (by omega)]
    | succ k ih =>
      intro l2 hl
      cases l2 with
      | nil =>
        simp only [Backend.chunksOf, List.length_nil]
        rw [Nat.div_eq_of_lt (by omega)]
      | cons x xs =>
        simp only [Backend.chunksOf, List.length_cons]
        rw [ih (xs.drop (n - 1))
          (by rw [List.length_drop]; simp only [List.length_cons] at hl; omega)]
        rw [List.length_drop]
        rcases Nat.lt_or_ge xs.length (n - 1) with hlt | hge
        · have e1 : (xs.length - (n - 1) + n - 1) / n = 0 :=
            Nat.div_eq_of_lt (by omega)
          have e2 : (xs.length + 1 + n - 1) / n = 1 := by
            have h3 : xs.length + 1 + n - 1 = xs.length + n := by omega
            rw [h3, Nat.add_div_right _ hn, Nat.div_eq_of_lt (by omega)]
          omega
        · have h1 : xs.length - (n - 1) + n - 1 = xs.length := by omega
          have h3 : xs.length + 1 + n - 1 = xs.length + n := by omega
          rw [h1, h3, Nat.add_div_right _ hn]
  exact main l.length l le_rfl

theorem normalize_for_asr_length (s : List ℚ) :
    (Backend.normalize_for_asr s).length = s.length := by
  simp only [Backend.normalize_for_asr]
  split_ifs <;> simp

theorem downmix_to_mono_length (audio : List ℚ) (ch : Nat) (hch : 0 < ch) :
    (Backend.downmix_to_mono audio ch).length = (audio.length + ch - 1) / ch := by
  unfold Backend.downmix_to_mono
  split_ifs with h
  · have hone : ch = 1 := by omega
    subst hone
    simp
  · rw [List.length_map, chunksOf_length ch hch]

theorem resample_linear_length (samples : List ℚ) (fr tr : Nat)
    (hs : samples ≠ []) (hf : fr ≠ 0) (ht : tr ≠ 0) :
    (Backend.resample_linear samples fr tr).length =
      (max 1 (Backend.roundQ ((samples.length : ℚ) * tr / fr))).toNat := by
  unfold Backend.resample_linear
  rw [if_neg (by simp [hs, hf, ht])]
  by_cases heq : fr = tr
  · rw [if_pos heq]
    subst heq
    have h1 : ((samples.length : ℚ) * fr / fr) = (samples.length : ℚ) := by
      field_simp
    rw [h1, roundQ_natCast]
    have hlen : 1 ≤ samples.length := List.length_pos.mpr hs
    rw [max_eq_right (by exact_mod_cast hlen)]
    simp
  · rw [if_neg heq]
    have harg : ((samples.length : ℚ) / ((fr : ℚ) / (tr : ℚ)))
        = (samples.length : ℚ) * tr / fr := div_div_eq_mul_div _ _ _
    rw [List.length_map, List.length_range, harg]

/-- **C6, counterexample.**  The input `[0.1]` is already 16 kHz mono but
quiet (peak 0.1 < 0.20), so `prepare_audio` boosts it by the 3.5 gain to
`[0.35]` — it is not returned bitwise-identical. -/
theorem prepare_audio_fast_path_refuted :
    ¬ ∀ (B : List ℚ) (F : Backend.AudioFormat),
        F.sample_rate = 16000 → F.channels = 1 →
        Backend.prepare_audio B F = B := by
  intro hall
  have h := hall [1 / 10] ⟨16000, 1, 16⟩ rfl rfl
  have hpeak : Backend.peakAbs [1 / 10] = (1 / 10 : ℚ) := by
    unfold Backend.peakAbs
    simp only [List.foldl_cons, List.foldl_nil]
    rw [abs_of_pos (by norm_num)]
    rw [max_eq_right (by norm_num)]
  have heval : Backend.prepare_audio [1 / 10] ⟨16000, 1, 16⟩ = [7 / 20] := by
    show Backend.normalize_for_asr [1 / 10] = [7 / 20]
    simp only [Backend.normalize_for_asr, hpeak]
    rw [if_neg (by simp), if_neg (by norm_num [Backend.f32Eps]), if_neg (by norm_num)]
    have hgain : ((7 : ℚ) / 20 / (1 / 10) ⊔ 1) ⊓ 80 = 7 / 2 := by
      rw [show (7 : ℚ) / 20 / (1 / 10) = 7 / 2 by norm_num]
      rw [max_eq_left (by norm_num), min_eq_left (by norm_num)]
    rw [hgain]
    rw [if_neg (by rw [show |(7 : ℚ) / 2 - 1| = 5 / 2 by
          rw [abs_of_pos (by norm_num)]; norm_num]; norm_num)]
    simp only [List.map_cons, List.map_nil]
    rw [show (1 : ℚ) / 10 * (7 / 2) = 7 / 20 by norm_num]
    rw [min_eq_left (by norm_num), max_eq_right (by norm_num)]
  rw [heval] at h
  have : (7 / 20 : ℚ) = 1 / 10 := List.cons.inj h |>.1
  norm_num at this

/-- **C6 (amended).**  `prepare_audio` (i) maps the empty buffer to the
empty buffer; (ii) produces a sample count corresponding to the input
duration at exactly 16 kHz mono (`expected16kLen`) for every nonempty
buffer with a valid format; and (iii) returns the input bitwise-identical
when it is already 16 kHz mono *and* loud enough to skip the quiet-clip
normalisation (peak at least 0.20; quiet 16 kHz mono input is
gain-boosted instead, as the counterexample shows).  A peak below
`f32::EPSILON` is likewise returned untouched. -/
theorem prepare_audio_16k_mono (B : List ℚ) (F : Backend.AudioFormat) :
    (Backend.prepare_audio [] F = [])
    ∧ (B ≠ [] → F.sample_rate ≠ 0 → F.channels ≠ 0 →
        (Backend.prepare_audio B F).length = Backend.expected16kLen B F)
    ∧ (F.sample_rate = 16000 → F.channels = 1 →
        (1 / 5 ≤ Backend.peakAbs B ∨ Backend.peakAbs B ≤ Backend.f32Eps) →
        Backend.prepare_audio B F = B) := by
  obtain ⟨rate, ch, bits⟩ := F
  refine ⟨by simp [Backend.prepare_audio], ?_, ?_⟩
  · intro hB hrate hch
    replace hrate : rate ≠ 0 := hrate
    replace hch : ch ≠ 0 := hch
    simp only [Backend.prepare_audio]
    rw [if_neg (by simp [hB, hrate, hch])]
    have hchpos : 0 < ch := Nat.pos_of_ne_zero hch
    have hmonolen : (if ch = 1 then B else Backend.downmix_to_mono B ch).length
        = (B.length + ch - 1) / ch := by
      split_ifs with h1
      · subst h1; simp
      · exact downmix_to_mono_length B ch hchpos
    have hframes : 1 ≤ (B.length + ch - 1) / ch := by
      have hlen : 1 ≤ B.length := List.length_pos.mpr hB
      rw [Nat.one_le_div_iff hchpos]
      omega
    by_cases hr16 : rate = Backend.TARGET_SAMPLE_RATE
    · rw [if_pos hr16]
      rw [normalize_for_asr_length, hmonolen]
      unfold Backend.expected16kLen
      have h1 : (((B.length + ch - 1) / ch : Nat) : ℚ) * 16000 / (rate : ℚ)
          = (((B.length + ch - 1) / ch : Nat) : ℚ) := by
        rw [hr16]
        show _ * 16000 / ((16000 : Nat) : ℚ) = _
        push_cast
        field_simp
      simp only [h1, roundQ_natCast]
      rw [max_eq_right (by exact_mod_cast hframes)]
      omega
    · rw [if_neg hr16]
      rw [normalize_for_asr_length]
      have hmono_ne : (if ch = 1 then B else Backend.downmix_to_mono B ch) ≠ [] := by
        intro hcon
        have := congrArg List.length hcon
        rw [hmonolen] at this
        simp at this
        omega
      rw [resample_linear_length _ _ _ hmono_ne hrate (by norm_num [Backend.TARGET_SAMPLE_RATE])]
      rw [hmonolen]
      rfl
  · intro hrate hch hloud
    replace hrate : rate = 16000 := hrate
    replace hch : ch = 1 := hch
    cases hB : B with
    | nil => simp [Backend.prepare_audio]
    | cons b bs =>
      rw [← hB]
      simp only [Backend.prepare_audio]
      rw [if_neg (by simp [hB, hrate, hch])]
      rw [if_pos hch]
      rw [if_pos (by rw [hrate]; rfl)]
      unfold Backend.normalize_for_asr
      rw [if_neg (by simp [hB])]
      rcases hloud with hloud | hquiet
      · rw [if_neg (by
          intro hle
          have : (1 / 5 : ℚ) ≤ Backend.f32Eps := le_trans hloud hle
          norm_num [Backend.f32Eps] at this)]
        rw [if_pos hloud]
      · rw [if_pos hquiet]

/-- Witness for the amended C6 theorem: the three clauses at concrete
buffers (six zero-alternating samples of 48 kHz stereo resample to one
16 kHz mono sample; a loud `[0.5]` buffer at 16 kHz mono passes through
bitwise). -/
theorem prepare_audio_16k_mono_witness :
    Backend.prepare_audio [] ⟨48000, 2, 16⟩ = []
    ∧ (Backend.prepare_audio [1/2, 1/2, 1/2, 1/2, 1/2, 1/2] ⟨48000, 2, 16⟩).length
        = Backend.expected16kLen [1/2, 1/2, 1/2, 1/2, 1/2, 1/2] ⟨48000, 2, 16⟩
    ∧ Backend.prepare_audio [1/2] ⟨16000, 1, 16⟩ = [1/2] := by
  refine ⟨(prepare_audio_16k_mono [] ⟨48000, 2, 16⟩).1,
    (prepare_audio_16k_mono [1/2, 1/2, 1/2, 1/2, 1/2, 1/2] ⟨48000, 2, 16⟩).2.1
      (by simp) (by norm_num) (by norm_num),
    (prepare_audio_16k_mono [1/2] ⟨16000, 1, 16⟩).2.2 rfl rfl (Or.inl ?_)⟩
  unfold Backend.peakAbs
  simp only [List.foldl_cons, List.foldl_nil]
  rw [abs_of_pos (by norm_num), max_eq_right (by norm_num)]
  norm_num

/-!
## Claim C1 — two-profile whisper decision tree

The decoder oracle `decode` stands for `decode_once` on the fixed
context/audio/task of one call; `run_whisper_transcription` consults it
with exactly the (profile, language) pairs that the claim's decision tree
prescribes.  "The caller pinned a language" is
`requestedLanguage hint ≠ none`, i.e. the hint exists and is nonblank
after trimming — the cleaning the source applies before the decision
tree. -/

/-- **C1.**  For every whisper-family transcription call, the decoder
follows the two-profile decision tree.  Writing `bias` for the biased
language (the trimmed nonblank caller hint if present, else "en") and
"empty" for `text.trim() == "" AND segments == []`:
(1) a non-empty Primary decode at `bias` is returned as-is;
(2) if that decode is empty and no language was pinned, a non-empty
Primary decode under auto-detect is returned;
(3) if that too is empty, the result is exactly the Permissive fallback
decode at `bias` (possibly empty); and
(4) if a language was pinned, an empty Primary decode goes directly to
the Permissive fallback at `bias`. -/
theorem run_whisper_two_profile_tree
    (decode : Backend.DecodeProfile → Option Str → Except Str Backend.Transcription)
    (hint : Option Str) :
    (∀ p, decode .primary (some ((Backend.requestedLanguage hint).getD "en".data))
          = .ok p →
        Backend.decodeEmpty p = false →
        Backend.run_whisper_transcription decode hint = .ok p)
    ∧ (∀ p a,
        decode .primary (some ((Backend.requestedLanguage hint).getD "en".data))
          = .ok p →
        Backend.decodeEmpty p = true →
        Backend.requestedLanguage hint = none →
        decode .primary none = .ok a → Backend.decodeEmpty a = false →
        Backend.run_whisper_transcription decode hint = .ok a)
    ∧ (∀ p a,
        decode .primary (some ((Backend.requestedLanguage hint).getD "en".data))
          = .ok p →
        Backend.decodeEmpty p = true →
        Backend.requestedLanguage hint = none →
        decode .primary none = .ok a → Backend.decodeEmpty a = true →
        Backend.run_whisper_transcription decode hint =
          decode .permissiveFallback
            (some ((Backend.requestedLanguage hint).getD "en".data)))
    ∧ (∀ p,
        decode .primary (some ((Backend.requestedLanguage hint).getD "en".data))
          = .ok p →
        Backend.decodeEmpty p = true →
        Backend.requestedLanguage hint ≠ none →
        Backend.run_whisper_transcription decode hint =
          decode .permissiveFallback
            (some ((Backend.requestedLanguage hint).getD "en".data))) := by
  refine ⟨?_, ?_, ?_, ?_⟩
  · intro p hp hne
    unfold Backend.run_whisper_transcription
    simp only [hp, hne]
    simp
  · intro p a hp hpe hreq ha hane
    unfold Backend.run_whisper_transcription
    rw [hreq] at hp ⊢
    simp only [Option.getD_none] at hp ⊢
    simp only [hp, hpe, ha, hane]
    simp
  · intro p a hp hpe hreq ha hae
    unfold Backend.run_whisper_transcription
    rw [hreq] at hp ⊢
    simp only [Option.getD_none] at hp ⊢
    simp only [hp, hpe, ha, hae]
    cases decode Backend.DecodeProfile.permissiveFallback (some ['e', 'n']) <;> rfl
  · intro p hp hpe hreq
    unfold Backend.run_whisper_transcription
    simp only [hp, hpe]
    rw [if_neg (by simp), if_neg hreq]
    cases decode .permissiveFallback
        (some ((Backend.requestedLanguage hint).getD "en".data)) <;> rfl

/-- A deterministic decoder oracle for the C1 witness: the Primary
profile yields an empty transcription under every language option, the
Permissive fallback yields "hi". -/
def c1WitnessDecoder :
    Backend.DecodeProfile → Option Str → Except Str Backend.Transcription
  | .primary, _ => .ok ⟨[], none, none, []⟩
  | .permissiveFallback, lang => .ok ⟨"hi".data, lang, none, []⟩

/-- Witness for C1: with no hint and a decoder whose Primary profile is
always empty, the pipeline returns the Permissive fallback result decoded
at the default "en" bias. -/
theorem run_whisper_two_profile_tree_witness :
    Backend.run_whisper_transcription c1WitnessDecoder none =
      Except.ok ⟨"hi".data, some "en".data, none, []⟩ := by
  have h := (run_whisper_two_profile_tree c1WitnessDecoder none).2.2.1
    ⟨[], none, none, []⟩ ⟨[], none, none, []⟩ rfl (by decide) rfl rfl (by decide)
  rw [h]
  rfl

/-!
## C4: final transcription-result text vs. the pasted text

`stop_recording_for_capture` (audio.rs lines 1269-1364) computes
`final_text` (the formatted, snippet-expanded text) and hands it to the
injector, but the `transcription-result` event that follows carries
`result.text` — the *raw* decoder output (audio.rs line 1336 emits
`result.text.clone()`).  The two coincide only when formatting is
disabled or fails (then `final_text` falls back to the raw text) and no
snippet fires.  The ordering half of the claim (result after the paste,
before `status=idle`) does hold.
-/

/-- The `audio_seconds` computation of the stop path (audio.rs lines
1246-1263): length over sample rate over channels of the (possibly
ffmpeg-normalised) buffer, `0` on a degenerate format. -/
def stopAudioSeconds (env : Audio.StopEnv) : ℚ :=
  let normalized :=
    match env.ffmpegResult with
    | .ok pair => pair
    | .error _ => (env.samples, env.fmt)
  if 0 < normalized.2.sample_rate ∧ 0 < normalized.2.channels then
    (normalized.1.length : ℚ) / (normalized.2.sample_rate : ℚ) /
      (normalized.2.channels : ℚ)
  else 0

/-- The `final_text` computation of the stop path (audio.rs lines
1290-1330): formatted text with snippets applied when formatting is
enabled and succeeds, the raw transcription text otherwise. -/
def stopFinalText (env : Audio.StopEnv) (tr : Backend.Transcription) : Str :=
  if env.settings.text_formatting_enabled then
    match env.formatResult with
    | .ok ftext =>
      if env.settings.snippets ≠ [] then
        Audio.apply_snippets ftext env.settings.snippets env.today env.hhmm
      else ftext
    | .error _ => tr.text
  else tr.text

/-- Full evaluation of the stop path on the happy path (stream present,
loud nonempty buffer, init and transcription succeed): the event trace is
processing, analytics, paste of the final text, final result carrying the
raw `tr.text`, idle. -/
theorem stop_transcribe_ok_eval (env : Audio.StopEnv)
    (tr : Backend.Transcription)
    (hs : env.hadStream = true)
    (hne : env.samples ≠ [])
    (hloud : ¬ Audio.calculate_rms_sq env.samples < Audio.silenceFloorSq)
    (hinit : (if env.needInit then env.initResult else Except.ok ())
      = Except.ok ())
    (htr : env.transcribeResult = Except.ok tr) :
    Audio.stop_recording_for_capture env =
      ⟨[Audio.UiEvent.status "processing".data none,
        Audio.UiEvent.analyticsUpdate (stopAudioSeconds env)
          (TextProcessor.wordCount tr.text),
        Audio.UiEvent.paste (stopFinalText env tr),
        Audio.UiEvent.result tr.text tr.language true,
        Audio.UiEvent.status "idle".data none],
        Except.ok (), true⟩ := by
  simp only [Audio.stop_recording_for_capture]
  rw [if_neg (by simp [hs]), if_neg hne, if_neg hloud, hinit]
  simp only [htr]
  rfl

/-- The transcription of the C4 scenario: the decoder returns the raw
lowercase text "hello world". -/
def c4Transcription : Backend.Transcription :=
  ⟨"hello world".data, none, none, []⟩

/-- The C4 environment: a live 48 kHz stereo session whose decode
succeeds, with text formatting enabled and the formatter producing
"Hello world." (the repo spec's own happy-path scenario). -/
def c4StopEnv : Audio.StopEnv where
  hadStream := true
  samples := [1]
  fmt := ⟨48000, 2, 32⟩
  needInit := false
  initResult := Except.ok ()
  ffmpegResult := Except.error "ffmpeg unavailable".data
  transcribeResult := Except.ok c4Transcription
  settings := ⟨true, none, [], [], "formal".data⟩
  isCommandMode := false
  formatResult := Except.ok "Hello world.".data
  today := "2026-10-12".data
  hhmm := "12:00".data

/-- **C4 (counterexample).**  It is not the case that on every
successfully completed session the text of the final
transcription-result event equals the string handed to the injector: in
the spec's own happy-path scenario the injector receives the formatted
"Hello world." while the final result event carries the raw decoder
output "hello world". -/
theorem paste_text_equals_final_result_refuted :
    ¬ ∀ (env : Audio.StopEnv) (t r : Str) (lang : Option Str),
        (Audio.stop_recording_for_capture env).ret = Except.ok () →
        Audio.UiEvent.paste t
          ∈ (Audio.stop_recording_for_capture env).events →
        Audio.UiEvent.result r lang true
          ∈ (Audio.stop_recording_for_capture env).events →
        t = r := by
  intro hall
  have h := stop_transcribe_ok_eval c4StopEnv c4Transcription rfl
    (by simp [c4StopEnv])
    (by norm_num [c4StopEnv, Audio.calculate_rms_sq, Audio.silenceFloorSq])
    rfl rfl
  have hft : stopFinalText c4StopEnv c4Transcription = "Hello world.".data := by
    simp [stopFinalText, c4StopEnv]
  have h2 := hall c4StopEnv (stopFinalText c4StopEnv c4Transcription)
    c4Transcription.text c4Transcription.language
    (by rw [h]) (by rw [h]; simp) (by rw [h]; simp)
  rw [hft] at h2
  exact absurd h2 (by decide)

/-- **C4 (amended).**  On every successfully completed dictation session
(live stream, loud nonempty buffer, init and transcription succeed) the
stop path emits, in order: status=processing, the analytics update, the
paste of the final (post-formatted, snippet-expanded) text, the final
transcription-result event, status=idle — so the result event does come
after the injector completes and before idle — but the result event
carries the *raw* transcription text `tr.text`, not the pasted
`stopFinalText`; the two agree whenever text formatting is disabled or
the formatter fails. -/
theorem stop_paste_before_final_result (env : Audio.StopEnv)
    (tr : Backend.Transcription)
    (hs : env.hadStream = true)
    (hne : env.samples ≠ [])
    (hloud : ¬ Audio.calculate_rms_sq env.samples < Audio.silenceFloorSq)
    (hinit : (if env.needInit then env.initResult else Except.ok ())
      = Except.ok ())
    (htr : env.transcribeResult = Except.ok tr) :
    (Audio.stop_recording_for_capture env).events =
      [Audio.UiEvent.status "processing".data none,
        Audio.UiEvent.analyticsUpdate (stopAudioSeconds env)
          (TextProcessor.wordCount tr.text),
        Audio.UiEvent.paste (stopFinalText env tr),
        Audio.UiEvent.result tr.text tr.language true,
        Audio.UiEvent.status "idle".data none]
    ∧ (Audio.stop_recording_for_capture env).ret = Except.ok ()
    ∧ (env.settings.text_formatting_enabled = false →
        stopFinalText env tr = tr.text)
    ∧ (∀ e, env.formatResult = Except.error e →
        stopFinalText env tr = tr.text) := by
  have h := stop_transcribe_ok_eval env tr hs hne hloud hinit htr
  refine ⟨by rw [h], by rw [h], ?_, ?_⟩
  · intro hdis
    unfold stopFinalText
    rw [if_neg (by simp [hdis])]
  · intro e herr
    unfold stopFinalText
    rw [herr]
    cases henb : env.settings.text_formatting_enabled <;> simp

/-- Witness for the amended C4 theorem at the concrete happy-path
environment. -/
theorem stop_paste_before_final_result_witness :
    (Audio.stop_recording_for_capture c4StopEnv).events =
      [Audio.UiEvent.status "processing".data none,
        Audio.UiEvent.analyticsUpdate (stopAudioSeconds c4StopEnv)
          (TextProcessor.wordCount c4Transcription.text),
        Audio.UiEvent.paste (stopFinalText c4StopEnv c4Transcription),
        Audio.UiEvent.result c4Transcription.text c4Transcription.language true,
        Audio.UiEvent.status "idle".data none]
    ∧ (Audio.stop_recording_for_capture c4StopEnv).ret = Except.ok ()
    ∧ (c4StopEnv.settings.text_formatting_enabled = false →
        stopFinalText c4StopEnv c4Transcription = c4Transcription.text)
    ∧ (∀ e, c4StopEnv.formatResult = Except.error e →
        stopFinalText c4StopEnv c4Transcription = c4Transcription.text) :=
  stop_paste_before_final_result c4StopEnv c4Transcription rfl
    (by simp [c4StopEnv])
    (by norm_num [c4StopEnv, Audio.calculate_rms_sq, Audio.silenceFloorSq])
    rfl rfl

/-!
## C9: Fn release while a companion key is held

On macOS (`fn_event_tap_callback`), `pressed_keys` is mutated only on
KeyDown (insert) and KeyUp (erase); an Fn release arrives as a
FlagsChanged event, which only updates the modifier booleans — it never
erases companions.  On Windows (`handle_raw_input`), `pressed_keys`
changes only when `vkey_to_key_token` maps the vkey, and the default Fn
vkeys (F22/F23/F24 = 133/134/135) map to no token, so an Fn break leaves
the pressed set untouched as well.
-/

theorem mac_sync_recording_fst_pressedKeys (ok : Bool) (s : FnKey.MacState) :
    (FnKey.mac_sync_recording ok s).1.pressedKeys = s.pressedKeys := by
  simp only [FnKey.mac_sync_recording]
  split_ifs <;> rfl

theorem mac_sync_recording_fst_keycodeTokens (ok : Bool) (s : FnKey.MacState) :
    (FnKey.mac_sync_recording ok s).1.keycodeTokens = s.keycodeTokens := by
  simp only [FnKey.mac_sync_recording]
  split_ifs <;> rfl

theorem mac_sync_hold_fst_pressedKeys (s : FnKey.MacState) :
    (FnKey.mac_sync_hold_signal s).1.pressedKeys = s.pressedKeys := by
  simp only [FnKey.mac_sync_hold_signal]
  split_ifs <;> rfl

theorem mac_sync_hold_fst_keycodeTokens (s : FnKey.MacState) :
    (FnKey.mac_sync_hold_signal s).1.keycodeTokens = s.keycodeTokens := by
  simp only [FnKey.mac_sync_hold_signal]
  split_ifs <;> rfl

theorem win_sync_recording_fst_pressedKeys (ok : Bool) (s : FnKey.WinState) :
    (FnKey.win_sync_recording ok s).1.pressedKeys = s.pressedKeys := by
  simp only [FnKey.win_sync_recording]
  split_ifs <;> rfl

theorem win_sync_hold_fst_pressedKeys (s : FnKey.WinState) :
    (FnKey.win_sync_hold_signal s).1.pressedKeys = s.pressedKeys := by
  simp only [FnKey.win_sync_hold_signal]
  split_ifs <;> rfl

/-- The exact effect of one macOS tap event on the pressed-key set:
KeyDown inserts the event's token, KeyUp erases the token recorded for
the keycode (or the freshly derived token), every other event type —
including the FlagsChanged event that carries an Fn release — leaves the
set unchanged. -/
theorem mac_callback_pressedKeys (push handsFree : Store.ShortcutSpec)
    (s : FnKey.MacState) (e : FnKey.MacEvent) :
    (FnKey.fn_event_tap_callback push handsFree s e).1.pressedKeys =
      if e.etype = FnKey.MacEventType.keyDown then
        match FnKey.key_token_from_event e with
        | some tok => insert tok s.pressedKeys
        | none => s.pressedKeys
      else if e.etype = FnKey.MacEventType.keyUp then
        match FnKey.assocLookup s.keycodeTokens e.keycode with
        | some existing => s.pressedKeys.erase existing
        | none =>
          match FnKey.key_token_from_event e with
          | some tok => s.pressedKeys.erase tok
          | none => s.pressedKeys
      else s.pressedKeys := by
  simp only [FnKey.fn_event_tap_callback, mac_sync_hold_fst_pressedKeys,
    mac_sync_recording_fst_pressedKeys, apply_ite FnKey.MacState.pressedKeys,
    apply_ite FnKey.MacState.keycodeTokens, ite_self]
  cases FnKey.key_token_from_event e <;>
    cases FnKey.assocLookup s.keycodeTokens e.keycode <;>
    simp [apply_ite FnKey.MacState.pressedKeys,
      apply_ite FnKey.MacState.keycodeTokens, ite_self]

/-- The exact effect of one macOS tap event on the keycode→token map:
only KeyDown (insert) and KeyUp (remove) touch it. -/
theorem mac_callback_keycodeTokens (push handsFree : Store.ShortcutSpec)
    (s : FnKey.MacState) (e : FnKey.MacEvent) :
    (FnKey.fn_event_tap_callback push handsFree s e).1.keycodeTokens =
      if e.etype = FnKey.MacEventType.keyDown then
        match FnKey.key_token_from_event e with
        | some tok => FnKey.assocInsert s.keycodeTokens e.keycode tok
        | none => s.keycodeTokens
      else if e.etype = FnKey.MacEventType.keyUp then
        match FnKey.assocLookup s.keycodeTokens e.keycode with
        | some _ => FnKey.assocRemove s.keycodeTokens e.keycode
        | none => s.keycodeTokens
      else s.keycodeTokens := by
  simp only [FnKey.fn_event_tap_callback, mac_sync_hold_fst_keycodeTokens,
    mac_sync_recording_fst_keycodeTokens, apply_ite FnKey.MacState.pressedKeys,
    apply_ite FnKey.MacState.keycodeTokens, ite_self]
  cases FnKey.key_token_from_event e <;>
    cases FnKey.assocLookup s.keycodeTokens e.keycode <;>
    simp [apply_ite FnKey.MacState.pressedKeys,
      apply_ite FnKey.MacState.keycodeTokens, ite_self]

/-- The exact effect of one Windows raw-input event on the pressed-key
set: only a vkey that `vkey_to_key_token` maps can change it (make
inserts, break erases); token-less vkeys — the default Fn vkeys among
them — leave it unchanged. -/
theorem win_callback_pressedKeys (push handsFree : Store.ShortcutSpec)
    (s : FnKey.WinState) (e : FnKey.WinEvent) :
    (FnKey.handle_raw_input push handsFree s e).1.pressedKeys =
      match FnKey.vkey_to_key_token e.vkey with
      | some tok =>
        if !e.isBreak then insert tok s.pressedKeys
        else s.pressedKeys.erase tok
      | none => s.pressedKeys := by
  simp only [FnKey.handle_raw_input, win_sync_hold_fst_pressedKeys,
    win_sync_recording_fst_pressedKeys, apply_ite FnKey.WinState.pressedKeys,
    ite_self]
  cases FnKey.vkey_to_key_token e.vkey <;>
    simp [apply_ite FnKey.WinState.pressedKeys, ite_self]

/-- The fn+space push-to-talk shortcut of the C9 scenario. -/
def c9Push : Store.ShortcutSpec :=
  ⟨true, false, false, false, false, some "space".data⟩

/-- macOS hotkey state while Fn and space are both held: space is in the
pressed set and in the keycode→token map, recording is active. -/
def c9MacState : FnKey.MacState :=
  ⟨true, false, false, false, false, {"space".data}, [(49, "space".data)],
    false, true, false, true, true, false⟩

/-- The Fn-release event: a FlagsChanged tap event for keycode 63 whose
flags no longer contain the secondary-fn bit. -/
def c9FnRelease : FnKey.MacEvent :=
  ⟨FnKey.MacEventType.flagsChanged, ⟨false, false, false, false, false⟩,
    63, false, [], true⟩

/-- **C9 (counterexample).**  Releasing Fn while a companion key is held
does **not** clear the companion from the pressed set: the macOS
FlagsChanged event for the Fn release leaves "space" in `pressed_keys`
(only KeyDown/KeyUp events touch the set). -/
theorem fn_release_clears_companion_refuted :
    ¬ ∀ (push handsFree : Store.ShortcutSpec) (s : FnKey.MacState)
        (e : FnKey.MacEvent) (tok : Str),
        s.fnDown = true →
        e.etype = FnKey.MacEventType.flagsChanged →
        e.keycode = FnKey.FN_KEYCODE →
        e.flags.secondaryFn = false →
        e.hardwareFnDown = false →
        tok ∈ s.pressedKeys →
        tok ∉ (FnKey.fn_event_tap_callback push handsFree s e).1.pressedKeys := by
  intro hall
  exact hall c9Push c9Push c9MacState c9FnRelease "space".data rfl rfl rfl rfl
    rfl (by decide) (by decide)

/-- **C9 (amended).**  The hotkey machines never clear a companion key on
an Fn release: (1) on macOS every FlagsChanged event — the carrier of Fn
transitions — leaves both `pressed_keys` and the keycode→token map
unchanged; (2) companions are only removed by their own KeyUp, which
erases the token recorded for the keycode; (3) on Windows any event whose
vkey maps to no key token leaves `pressed_keys` unchanged, and (4) the
default Fn vkeys F24/F23/F22 (135/134/133) map to no token, so an Fn
break never erases a companion there either. -/
theorem fn_release_companion_behaviour :
    (∀ (push handsFree : Store.ShortcutSpec) (s : FnKey.MacState)
        (e : FnKey.MacEvent),
        e.etype = FnKey.MacEventType.flagsChanged →
        (FnKey.fn_event_tap_callback push handsFree s e).1.pressedKeys
            = s.pressedKeys
          ∧ (FnKey.fn_event_tap_callback push handsFree s e).1.keycodeTokens
            = s.keycodeTokens)
    ∧ (∀ (push handsFree : Store.ShortcutSpec) (s : FnKey.MacState)
        (e : FnKey.MacEvent) (tok : Str),
        e.etype = FnKey.MacEventType.keyUp →
        FnKey.assocLookup s.keycodeTokens e.keycode = some tok →
        (FnKey.fn_event_tap_callback push handsFree s e).1.pressedKeys
          = s.pressedKeys.erase tok)
    ∧ (∀ (push handsFree : Store.ShortcutSpec) (s : FnKey.WinState)
        (e : FnKey.WinEvent),
        FnKey.vkey_to_key_token e.vkey = none →
        (FnKey.handle_raw_input push handsFree s e).1.pressedKeys
          = s.pressedKeys)
    ∧ (FnKey.vkey_to_key_token 135 = none
        ∧ FnKey.vkey_to_key_token 134 = none
        ∧ FnKey.vkey_to_key_token 133 = none) := by
  refine ⟨?_, ?_, ?_, by decide⟩
  · intro push handsFree s e he
    constructor
    · rw [mac_callback_pressedKeys]
      rw [if_neg (by simp [he]), if_neg (by simp [he])]
    · rw [mac_callback_keycodeTokens]
      rw [if_neg (by simp [he]), if_neg (by simp [he])]
  · intro push handsFree s e tok he hlook
    rw [mac_callback_pressedKeys, if_neg (by simp [he]), if_pos he, hlook]
  · intro push handsFree s e hn
    rw [win_callback_pressedKeys, hn]

/-- Windows hotkey state while Fn and the letter a are both held. -/
def c9WinState : FnKey.WinState :=
  ⟨true, false, false, false, false, {"a".data}, true, false, true, true,
    false, none, none⟩

/-- The Windows Fn break event: vkey 135 (F24, the default guess), key
going up. -/
def c9WinFnRelease : FnKey.WinEvent := ⟨135, 0, true, true⟩

/-- Witness for the amended C9 theorem: the concrete macOS Fn release
leaves the pressed set and token map of the concrete held-space state
unchanged, and the concrete Windows F24 break leaves its pressed set
unchanged. -/
theorem fn_release_companion_behaviour_witness :
    ((FnKey.fn_event_tap_callback c9Push c9Push c9MacState c9FnRelease).1.pressedKeys
        = c9MacState.pressedKeys
      ∧ (FnKey.fn_event_tap_callback c9Push c9Push c9MacState c9FnRelease).1.keycodeTokens
        = c9MacState.keycodeTokens)
    ∧ (FnKey.handle_raw_input c9Push c9Push c9WinState c9WinFnRelease).1.pressedKeys
        = c9WinState.pressedKeys :=
  ⟨fn_release_companion_behaviour.1 c9Push c9Push c9MacState c9FnRelease rfl,
    fn_release_companion_behaviour.2.2.1 c9Push c9Push c9WinState c9WinFnRelease
      (by decide)⟩

/-!
## C2: download progress events

The loop lemmas below characterise `downloadLoop`: its event trail is
monotone in `downloaded_bytes` (compositionally, with an arbitrary
monotone tail appended), a completed loop emits only `done=false`
progress events, and a failed loop ends in exactly one `done=true` event
whose stage is "download" with the error field set.
-/

/-- `downloaded_bytes` of the events is non-decreasing, starting at
`lo`. -/
def monotoneFrom : Nat → List Backend.ModelDownloadProgress → Bool
  | _, [] => true
  | lo, ev :: rest =>
    decide (lo ≤ ev.downloaded_bytes) && monotoneFrom ev.downloaded_bytes rest

theorem monotoneFrom_anti {lo lo' : Nat} (h : lo' ≤ lo) :
    ∀ {l : List Backend.ModelDownloadProgress},
      monotoneFrom lo l = true → monotoneFrom lo' l = true := by
  intro l hl
  cases l with
  | nil => rfl
  | cons ev rest =>
    simp only [monotoneFrom, Bool.and_eq_true, decide_eq_true_eq] at hl ⊢
    exact ⟨le_trans h hl.1, hl.2⟩

theorem getLast_of_cons {α : Type} (a x : α) :
    ∀ l : List α, l.getLast? = some x → (a :: l).getLast? = some x := by
  intro l h
  cases l with
  | nil => nomatch h
  | cons b t =>
    rw [List.getLast?_cons_cons]
    exact h

/-- The streaming loop is monotone from its starting byte count, even
with any tail that is monotone from the loop's final byte count appended
after its own events. -/
theorem downloadLoop_monotone_append (name : Str) (total : Option Nat) :
    ∀ (steps : List Backend.ReadStep) (dl le : Nat)
      (tail : List Backend.ModelDownloadProgress),
      monotoneFrom (Backend.downloadLoop name total steps dl le).2.2 tail = true →
      monotoneFrom dl
        ((Backend.downloadLoop name total steps dl le).1 ++ tail) = true := by
  intro steps
  induction steps with
  | nil =>
    intro dl le tail h
    simpa [Backend.downloadLoop] using h
  | cons step rest ih =>
    intro dl le tail h
    cases step with
    | readFail =>
      simp only [Backend.downloadLoop] at h ⊢
      simp only [List.cons_append, List.nil_append, monotoneFrom,
        Bool.and_eq_true, decide_eq_true_eq]
      exact ⟨le_refl dl, h⟩
    | readChunk n w =>
      simp only [Backend.downloadLoop] at h ⊢
      by_cases hn : n = 0
      · rw [if_pos hn] at h ⊢
        simpa using h
      · rw [if_neg hn] at h ⊢
        by_cases hw : w = false
        · rw [if_pos hw] at h ⊢
          simp only [List.cons_append, List.nil_append, monotoneFrom,
            Bool.and_eq_true, decide_eq_true_eq]
          exact ⟨le_refl dl, h⟩
        · rw [if_neg hw] at h ⊢
          split at h
          next hc =>
            rw [if_pos hc]
            simp only [List.cons_append, monotoneFrom, Bool.and_eq_true,
              decide_eq_true_eq]
            exact ⟨Nat.le_add_right dl n, ih _ _ _ h⟩
          next hc =>
            rw [if_neg hc]
            exact monotoneFrom_anti (Nat.le_add_right dl n) (ih _ _ _ h)

/-- A completed loop run emits only `done=false` progress events; a
failed run ends with exactly one `done=true` event, carrying stage
"download" and an error. -/
theorem downloadLoop_done_events (name : Str) (total : Option Nat) :
    ∀ (steps : List Backend.ReadStep) (dl le : Nat),
      ((Backend.downloadLoop name total steps dl le).2.1 = true →
        ((Backend.downloadLoop name total steps dl le).1.filter
          fun ev => ev.done) = [])
      ∧ ((Backend.downloadLoop name total steps dl le).2.1 = false →
        (((Backend.downloadLoop name total steps dl le).1.filter
            fun ev => ev.done).length = 1
          ∧ ∃ ev,
              (Backend.downloadLoop name total steps dl le).1.getLast? = some ev
              ∧ ev.done = true ∧ ev.stage = "download".data
              ∧ ev.error ≠ none)) := by
  intro steps
  induction steps with
  | nil =>
    intro dl le
    exact ⟨fun _ => rfl, fun hbad => nomatch hbad⟩
  | cons step rest ih =>
    intro dl le
    cases step with
    | readFail =>
      constructor
      · exact fun hok => nomatch hok
      · intro _
        refine ⟨rfl, _, rfl, rfl, rfl, ?_⟩
        exact fun hco => nomatch hco
    | readChunk n w =>
      simp only [Backend.downloadLoop]
      by_cases hn : n = 0
      · rw [if_pos hn]
        exact ⟨fun _ => rfl, fun hbad => nomatch hbad⟩
      · rw [if_neg hn]
        by_cases hw : w = false
        · rw [if_pos hw]
          constructor
          · exact fun hok => nomatch hok
          · intro _
            refine ⟨rfl, _, rfl, rfl, rfl, ?_⟩
            exact fun hco => nomatch hco
        · rw [if_neg hw]
          split
          next hc =>
            constructor
            · intro hok
              simp only [List.filter_cons]
              simp only [Bool.false_eq_true, if_false]
              exact (ih (dl + n) (dl + n)).1 hok
            · intro hbad
              obtain ⟨hlen, ev, hlast, hdone, hstage, herr⟩ :=
                (ih (dl + n) (dl + n)).2 hbad
              constructor
              · simp only [List.filter_cons]
                simp only [Bool.false_eq_true, if_false]
                exact hlen
              · exact ⟨ev, getLast_of_cons _ _ _ hlast, hdone, hstage, herr⟩
          next hc =>
            exact ih (dl + n) le

theorem getLast_cons_concat {α : Type} (a x : α) (l : List α) :
    (a :: l ++ [x]).getLast? = some x := by
  rw [List.getLast?_concat]

/-- The failing C2 environment: the GET succeeds (Content-Length
1000000), the temporary file is created, and the first stream read
fails. -/
def c2FailEnv : Backend.DownloadEnv :=
  ⟨some (some 1000000), true, [Backend.ReadStep.readFail], true, true⟩

/-- **C2 (counterexample).**  A download whose stream read fails leaves
the temporary `.download` file on disk (`download_model` has no cleanup
on any failure path), and its terminal event carries stage "download",
not "error" — so the claimed terminal-stage/deletion behaviour does not
hold. -/
theorem download_error_cleanup_refuted :
    ¬ ∀ (name : Str) (env : Backend.DownloadEnv),
        monotoneFrom 0 (Backend.download_model name env).events = true
        ∧ ((Backend.download_model name env).events.filter
            fun ev => ev.done).length = 1
        ∧ (∀ ev ∈ (Backend.download_model name env).events, ev.done = true →
            ev.stage = "ready".data ∨ ev.stage = "error".data)
        ∧ ((Backend.download_model name env).ok = false →
            (Backend.download_model name env).tmpExists = false) := by
  intro hall
  exact absurd ((hall "m".data c2FailEnv).2.2.2 (by decide)) (by decide)

/-- **C2 (amended).**  For every initiated download, the emitted events
are monotone non-decreasing in `downloaded_bytes` and exactly one event
has `done=true`; that event is the last one, with stage "ready" and no
error on success, and stage "download" (not "error") with an error set on
failure.  The temporary `.download` file still exists on return exactly
when it was created and the download failed: no failure path deletes
it. -/
theorem download_events_monotone_terminal (name : Str)
    (env : Backend.DownloadEnv) :
    monotoneFrom 0 (Backend.download_model name env).events = true
    ∧ ((Backend.download_model name env).events.filter
        fun ev => ev.done).length = 1
    ∧ (∃ ev, (Backend.download_model name env).events.getLast? = some ev
        ∧ ev.done = true
        ∧ ((Backend.download_model name env).ok = true →
            ev.stage = "ready".data ∧ ev.error = none)
        ∧ ((Backend.download_model name env).ok = false →
            ev.stage = "download".data ∧ ev.error ≠ none))
    ∧ ((Backend.download_model name env).tmpExists
        = ((Backend.download_model name env).tmpCreated
            && !(Backend.download_model name env).ok)) := by
  unfold Backend.download_model
  cases hget : env.getResult with
  | none =>
    refine ⟨rfl, rfl, ⟨_, rfl, rfl, ?_, ?_⟩, rfl⟩
    · exact fun hok => nomatch hok
    · exact fun _ => ⟨rfl, fun hco => nomatch hco⟩
  | some total =>
    simp only []
    by_cases hcr : env.createOk = false
    · rw [if_pos hcr]
      refine ⟨rfl, rfl, ⟨_, rfl, rfl, ?_, ?_⟩, rfl⟩
      · exact fun hok => nomatch hok
      · exact fun _ => ⟨rfl, fun hco => nomatch hco⟩
    · rw [if_neg hcr]
      have hmp := downloadLoop_monotone_append name total env.reads 0 0
      have hde := downloadLoop_done_events name total env.reads 0 0
      by_cases hloop : (Backend.downloadLoop name total env.reads 0 0).2.1 = false
      · rw [if_pos hloop]
        obtain ⟨hlen, ev, hlast, hdone, hstage, herr⟩ := hde.2 hloop
        refine ⟨?_, ?_, ?_, rfl⟩
        · have hm := hmp [] rfl
          rw [List.append_nil] at hm
          simpa [monotoneFrom] using hm
        · simpa [List.filter_cons] using hlen
        · refine ⟨ev, ?_, ?_, ?_, ?_⟩
          · exact getLast_of_cons _ _ _ hlast
          · exact hdone
          · exact fun hok => nomatch hok
          · exact fun _ => ⟨hstage, herr⟩
      · have hloopT : (Backend.downloadLoop name total env.reads 0 0).2.1
            = true := by
          cases hb : (Backend.downloadLoop name total env.reads 0 0).2.1
          · exact absurd hb hloop
          · rfl
        have hnil := hde.1 hloopT
        rw [if_neg hloop]
        by_cases hfl : env.flushOk = false
        · rw [if_pos hfl]
          refine ⟨?_, ?_, ?_, rfl⟩
          · have hm := hmp [⟨name, "download".data,
              (Backend.downloadLoop name total env.reads 0 0).2.2, total,
              Backend.pctOf
                (Backend.downloadLoop name total env.reads 0 0).2.2 total,
              true, some "failed to flush downloaded model".data,
              some "Failed to flush temporary file".data⟩]
              (by simp [monotoneFrom])
            simpa [monotoneFrom] using hm
          · simp [List.filter_cons, List.filter_append, hnil]
          · refine ⟨⟨name, "download".data,
                (Backend.downloadLoop name total env.reads 0 0).2.2, total,
                Backend.pctOf
                  (Backend.downloadLoop name total env.reads 0 0).2.2 total,
                true, some "failed to flush downloaded model".data,
                some "Failed to flush temporary file".data⟩, ?_, ?_, ?_, ?_⟩
            · exact getLast_cons_concat _ _ _
            · exact rfl
            · exact fun hok => nomatch hok
            · exact fun _ => ⟨rfl, fun hco => nomatch hco⟩
        · rw [if_neg hfl]
          by_cases hrn : env.renameOk = false
          · rw [if_pos hrn]
            refine ⟨?_, ?_, ?_, rfl⟩
            · have hm := hmp [⟨name, "download".data,
                (Backend.downloadLoop name total env.reads 0 0).2.2, total,
                Backend.pctOf
                  (Backend.downloadLoop name total env.reads 0 0).2.2 total,
                true, some "failed to finalize downloaded model".data,
                some "Failed to finalize model file".data⟩]
                (by simp [monotoneFrom])
              simpa [monotoneFrom] using hm
            · simp [List.filter_cons, List.filter_append, hnil]
            · refine ⟨⟨name, "download".data,
                  (Backend.downloadLoop name total env.reads 0 0).2.2, total,
                  Backend.pctOf
                    (Backend.downloadLoop name total env.reads 0 0).2.2 total,
                  true, some "failed to finalize downloaded model".data,
                  some "Failed to finalize model file".data⟩, ?_, ?_, ?_, ?_⟩
              · exact getLast_cons_concat _ _ _
              · exact rfl
              · exact fun hok => nomatch hok
              · exact fun _ => ⟨rfl, fun hco => nomatch hco⟩
          · rw [if_neg hrn]
            refine ⟨?_, ?_, ?_, rfl⟩
            · have hm := hmp [⟨name, "ready".data,
                (Backend.downloadLoop name total env.reads 0 0).2.2, total,
                some 100, true, none,
                some "Model download complete".data⟩]
                (by simp [monotoneFrom])
              simpa [monotoneFrom] using hm
            · simp [List.filter_cons, List.filter_append, hnil]
            · refine ⟨⟨name, "ready".data,
                  (Backend.downloadLoop name total env.reads 0 0).2.2, total,
                  some 100, true, none,
                  some "Model download complete".data⟩, ?_, ?_, ?_, ?_⟩
              · exact getLast_cons_concat _ _ _
              · exact rfl
              · exact fun _ => ⟨rfl, rfl⟩
              · exact fun hbad => nomatch hbad

/-- A successful download environment: Content-Length 4, one 4-byte
chunk, flush and rename succeed. -/
def c2OkEnv : Backend.DownloadEnv :=
  ⟨some (some 4), true, [Backend.ReadStep.readChunk 4 true], true, true⟩

/-- Witness for the amended C2 theorem: on the concrete successful
download the events are monotone, exactly one is terminal, and — the
`ok = true` implication discharged — the last one has stage "ready". -/
theorem download_events_monotone_terminal_witness :
    monotoneFrom 0 (Backend.download_model "m".data c2OkEnv).events = true
    ∧ ((Backend.download_model "m".data c2OkEnv).events.filter
        fun ev => ev.done).length = 1
    ∧ ∃ ev, (Backend.download_model "m".data c2OkEnv).events.getLast? = some ev
        ∧ ev.stage = "ready".data := by
  obtain ⟨h1, h2, ⟨ev, hlast, hdone, hok, hbad⟩, h4⟩ :=
    download_events_monotone_terminal "m".data c2OkEnv
  exact ⟨h1, h2, ev, hlast, (hok (by decide)).1⟩

end OpenWispr
